import Mathlib

/-!
A Lean 4 model of the space-station cargo-management core: the data model
(items, containers, positions), the geometry kernel (accessibility), the
return/waste selection (knapsack-style greedy), the retrieval planner
(visibility, blocking graph, topological ordering, step generation) and the
placement engine.  Real numbers of the source are modelled as rationals,
Python `int()` truncation as truncation toward zero, and the injected
catalog lookups (`crud.get_item`, `crud.get_container`,
`crud.get_container_positions`) as function parameters, exactly as the
repository's tests inject them.  Divisions whose denominator is data are
modelled fallibly (`Except`), mirroring Python's `ZeroDivisionError`.
-/

namespace Cargo

/-- Item snapshot: the fields consumed by the placement, retrieval and
return-selection algorithms (`src/models/item.py`). -/
structure Item where
  id : String
  name : String
  width : ℚ
  height : ℚ
  depth : ℚ
  mass : ℚ
  priority : Int
  preferred_zone : Option String
deriving DecidableEq, Repr

/-- `Item.volume` from `src/models/item.py`. -/
def Item.volume (it : Item) : ℚ := it.width * it.height * it.depth

/-- `Item.get_possible_orientations` from `src/models/item.py`: the six
axis permutations of (width, height, depth). -/
def Item.get_possible_orientations (it : Item) : List (ℚ × ℚ × ℚ) :=
  [ (it.width, it.height, it.depth),
    (it.width, it.depth, it.height),
    (it.height, it.width, it.depth),
    (it.height, it.depth, it.width),
    (it.depth, it.width, it.height),
    (it.depth, it.height, it.width) ]

/-- Container snapshot (`src/models/container.py`). -/
structure Container where
  id : String
  name : String
  zone : String
  width : ℚ
  depth : ℚ
  height : ℚ
  max_weight : Option ℚ
deriving DecidableEq, Repr

/-- `Container.volume` from `src/models/container.py`. -/
def Container.volume (c : Container) : ℚ := c.width * c.height * c.depth

/-- Position snapshot (`src/models/position.py`). -/
structure Position where
  id : String
  item_id : String
  container_id : String
  x : ℚ
  y : ℚ
  z : ℚ
  orientation : Int
  visible : Bool
deriving DecidableEq, Repr

/-- The recurring source pattern

    orientations = item.get_possible_orientations()
    if 0 <= orientation < len(orientations): width, height, depth = orientations[orientation]
    else: width, height, depth = item.width, item.height, item.depth
-/
def orientedDims (it : Item) (ori : Int) : ℚ × ℚ × ℚ :=
  let l := it.get_possible_orientations
  if 0 ≤ ori ∧ ori < (l.length : Int) then
    l.getD ori.toNat (it.width, it.height, it.depth)
  else
    (it.width, it.height, it.depth)

/-- Python float division: raises `ZeroDivisionError` on a zero denominator. -/
def safeDiv (a b : ℚ) : Except Unit ℚ :=
  if b = 0 then .error () else .ok (a / b)

instance {ε α : Type} [DecidableEq ε] [DecidableEq α] : DecidableEq (Except ε α)
  | .error a, .error b =>
    if h : a = b then isTrue (by rw [h])
    else isFalse (fun hh => h (Except.error.injEq .. ▸ hh))
  | .error _, .ok _ => isFalse (fun hh => Except.noConfusion hh)
  | .ok _, .error _ => isFalse (fun hh => Except.noConfusion hh)
  | .ok a, .ok b =>
    if h : a = b then isTrue (by rw [h])
    else isFalse (fun hh => h (Except.ok.injEq .. ▸ hh))

/-- `calculate_accessibility` from `src/algorithms/spatial.py` (lines 44-76):
returns 1.0 for a container of depth <= 0, otherwise
`max(0, min(1, 1 - center_z / depth))` where `center_z = z + item_depth/2`. -/
def calculate_accessibility (position dimensions : ℚ × ℚ × ℚ) (container : Container) : ℚ :=
  if container.depth ≤ 0 then 1 else
    let z := position.2.2
    let depth := dimensions.2.2
    let center_z := z + depth / 2
    let accessibility := 1 - center_z / container.depth
    max 0 (min 1 accessibility)

/-- `check_collision` from `src/algorithms/spatial.py` (lines 78-115):
axis-aligned boxes collide iff they overlap strictly on all three axes. -/
def check_collision (item1_pos item1_dim item2_pos item2_dim : ℚ × ℚ × ℚ) : Bool :=
  let (x1, y1, z1) := item1_pos
  let (w1, h1, d1) := item1_dim
  let (x2, y2, z2) := item2_pos
  let (w2, h2, d2) := item2_dim
  if z1 + d1 ≤ z2 ∨ z2 + d2 ≤ z1 then false
  else if y1 + h1 ≤ y2 ∨ y2 + h2 ≤ y1 then false
  else if x1 + w1 ≤ x2 ∨ x2 + w2 ≤ x1 then false
  else true

/-! Return/waste selection, `src/algorithms/return_planning.py`. -/

/-- The ordering key of `knapsack_selection` (line 143):
`x.priority / (x.mass * x.volume())`.  Only meaningful when the
denominator is nonzero; the caller guards the cases where Python would
raise `ZeroDivisionError`. -/
def knapsackKey (it : Item) : ℚ := (it.priority : ℚ) / (it.mass * it.volume)

/-- The greedy acceptance loop of `knapsack_selection` (lines 145-155):
scan the sorted candidates, accepting an item whenever both running
totals stay within the caps. -/
def greedyTake (maxW maxV : ℚ) : List Item → ℚ → ℚ → List Item × ℚ × ℚ
  | [], tw, tv => ([], tw, tv)
  | it :: rest, tw, tv =>
    if tw + it.mass ≤ maxW ∧ tv + it.volume ≤ maxV then
      let r := greedyTake maxW maxV rest (tw + it.mass) (tv + it.volume)
      (it :: r.1, r.2)
    else
      greedyTake maxW maxV rest tw tv

/-- `knapsack_selection` from `src/algorithms/return_planning.py`
(lines 124-155).  Python's `list.sort(key=..., reverse=True)` evaluates the
key for every element (raising `ZeroDivisionError` when some item has
`mass * volume == 0`) and is a stable descending sort, modelled by the
stable `List.insertionSort` with relation `knapsackKey b ≤ knapsackKey a`. -/
def knapsack_selection (items : List Item) (max_weight max_volume : ℚ) :
    Except Unit (List Item × ℚ × ℚ) :=
  if items.all (fun it => it.mass * it.volume ≠ 0) then
    let sorted := items.insertionSort (fun a b => knapsackKey b ≤ knapsackKey a)
    .ok (greedyTake max_weight max_volume sorted 0 0)
  else
    .error ()

/-- Waste reasons (`src/models/return_mission.py`). -/
inductive WasteReason where
  | expired
  | depleted
  | damaged
  | other
deriving DecidableEq, Repr

/-- A waste candidate as the specification describes it: an item together
with how many days ago it was marked waste and the waste reason. -/
structure WasteCandidate where
  item : Item
  days_since_marked_waste : Int
  reason : WasteReason
deriving DecidableEq, Repr

/-- Modelled from the spec: the priority score the specification claims the
return selection sorts by, `item.priority + 2*days_since_marked_waste +
(100 if reason == expired else 0)`. -/
def specWasteScore (c : WasteCandidate) : Int :=
  c.item.priority + 2 * c.days_since_marked_waste +
    (if c.reason = WasteReason.expired then 100 else 0)

/-- Modelled from the spec: the selection procedure the specification
describes — sort the candidates by `specWasteScore`, highest first, then
greedily accept while both running totals stay within the caps. -/
def spec_waste_selection (cands : List WasteCandidate) (max_weight max_volume : ℚ) :
    List Item × ℚ × ℚ :=
  let sorted := cands.insertionSort (fun a b => specWasteScore b ≤ specWasteScore a)
  greedyTake max_weight max_volume (sorted.map WasteCandidate.item) 0 0

/-- The selection slice of `generate_return_plan`
(`src/algorithms/return_planning.py` lines 65-69): the waste candidates
are first sorted by plain priority, highest first (line 66), and then
handed to `knapsack_selection`, which re-sorts them by its own key. -/
def generate_return_plan_selection (waste_items : List Item)
    (max_weight max_volume : ℚ) : Except Unit (List Item × ℚ × ℚ) :=
  knapsack_selection (waste_items.insertionSort (fun a b => b.priority ≤ a.priority))
    max_weight max_volume

/-- A `WasteItem` record (`src/models/return_mission.py`): the fields read
by `select_items_for_return`. -/
structure WasteRecord where
  reason : WasteReason
  waste_date : Int
deriving DecidableEq, Repr

/-- One `waste_items` entry handed to
`waste_management.select_items_for_return`: the dictionary with keys
`item`, `waste_record`, `container_id`, `position`. -/
structure WasteItemEntry where
  item : Item
  waste_record : WasteRecord
  container_id : String
  position : Option Position
deriving DecidableEq, Repr

/-- One enriched dictionary built inside `select_items_for_return`, with
the computed `priority_score`, `weight` and `volume` fields. -/
structure ScoredWasteEntry where
  item : Item
  waste_record : WasteRecord
  container_id : String
  position : Option Position
  priority_score : Int
  weight : ℚ
  volume : ℚ
deriving DecidableEq, Repr

/-- The greedy acceptance loop of `select_items_for_return`
(`src/algorithms/waste_management.py` lines 361-379): skip an entry when
adding it would exceed either cap, otherwise accept it. -/
def greedyScored (maxW maxV : ℚ) :
    List ScoredWasteEntry → ℚ → ℚ → List ScoredWasteEntry × ℚ × ℚ
  | [], tw, tv => ([], tw, tv)
  | e :: rest, tw, tv =>
    if maxW < tw + e.weight ∨ maxV < tv + e.volume then
      greedyScored maxW maxV rest tw tv
    else
      let r := greedyScored maxW maxV rest (tw + e.weight) (tv + e.volume)
      (e :: r.1, r.2)

/-- `select_items_for_return` from `src/algorithms/waste_management.py`
(lines 312-379): score each candidate by
`priority + 2*waste_age + (100 if reason == EXPIRED)` where `waste_age`
is the number of days since the waste date (the wall clock `date.today()`
is the injected `today`), sort by that score highest first (stable), then
greedily accept under both caps. -/
def select_items_for_return (today : Int) (waste_items : List WasteItemEntry)
    (max_weight max_volume : ℚ) : List ScoredWasteEntry × ℚ × ℚ :=
  let sorted_items := waste_items.map (fun waste_item =>
    let waste_age := today - waste_item.waste_record.waste_date
    let priority_score := waste_item.item.priority + waste_age * 2 +
      (if waste_item.waste_record.reason = WasteReason.expired then 100 else 0)
    { item := waste_item.item, waste_record := waste_item.waste_record,
      container_id := waste_item.container_id, position := waste_item.position,
      priority_score := priority_score, weight := waste_item.item.mass,
      volume := waste_item.item.volume : ScoredWasteEntry })
  let sorted := sorted_items.insertionSort (fun a b => b.priority_score ≤ a.priority_score)
  greedyScored max_weight max_volume sorted 0 0

/-! Retrieval planner, `src/algorithms/retrieval.py`. -/

/-- An oriented axis-aligned bounding box, as the dictionaries built in
`build_dependency_graph_optimized` (lines 233-241). -/
structure BBox where
  x_min : ℚ
  y_min : ℚ
  z_min : ℚ
  x_max : ℚ
  y_max : ℚ
  z_max : ℚ
deriving DecidableEq, Repr

/-- The bounding box of a position, using the item dimensions selected by
the position's orientation index. -/
def positionBBox (it : Item) (p : Position) : BBox :=
  let (w, h, d) := orientedDims it p.orientation
  ⟨p.x, p.y, p.z, p.x + w, p.y + h, p.z + d⟩

/-- `is_visible` from `src/algorithms/retrieval.py` (lines 114-194).
`getItem` is the injected catalog lookup (`crud.get_item`). -/
def is_visible (getItem : String → Option Item) (target_position : Position)
    (all_positions : List Position) : Bool :=
  if target_position.z = 0 then true
  else
    match getItem target_position.item_id with
    | none => false
    | some target_item =>
      let tb := positionBBox target_item target_position
      let blocked := all_positions.any (fun position =>
        if position.id = target_position.id then false
        else if target_position.z ≤ position.z then false
        else
          match getItem position.item_id with
          | none => false
          | some blocking_item =>
            let bb := positionBBox blocking_item position
            if bb.z_max ≤ tb.z_min then false
            else
              (bb.x_min < tb.x_max && bb.x_max > tb.x_min) &&
              (bb.y_min < tb.y_max && bb.y_max > tb.y_min))
      !blocked

/-- A directed graph with the interface of `networkx.DiGraph` used by the
source: an (insertion-ordered, duplicate-free) node list and an edge list. -/
structure DiGraph where
  nodes : List String
  edges : List (String × String)
deriving DecidableEq, Repr

/-- `DiGraph.add_node`: a no-op when the node is already present. -/
def DiGraph.add_node (G : DiGraph) (n : String) : DiGraph :=
  if n ∈ G.nodes then G else ⟨G.nodes ++ [n], G.edges⟩

/-- `DiGraph.add_edge`: inserts both endpoints and the edge, without
duplicates. -/
def DiGraph.add_edge (G : DiGraph) (u v : String) : DiGraph :=
  let G1 := (G.add_node u).add_node v
  if (u, v) ∈ G1.edges then G1 else ⟨G1.nodes, G1.edges ++ [(u, v)]⟩

/-- Last-write-wins dictionary insert, as Python `dict` assignment. -/
def dictInsert {β : Type} (m : List (String × β)) (k : String) (v : β) :
    List (String × β) :=
  if m.any (fun kv => kv.1 = k) then
    m.map (fun kv => if kv.1 = k then (k, v) else kv)
  else m ++ [(k, v)]

/-- `bb1` blocks `bb2` (lines 259-269 of the graph construction): their
z-extents are not separated with `bb1` wholly in front, and their x-y
projections overlap. -/
def blocksBB (bb1 bb2 : BBox) : Bool :=
  (!(bb1.z_max ≤ bb2.z_min)) &&
  (bb1.x_min < bb2.x_max && bb1.x_max > bb2.x_min) &&
  (bb1.y_min < bb2.y_max && bb1.y_max > bb2.y_min)

/-- All ordered pairs `(l[i], l[j])` with `i < j`, the enumeration of the
nested loops `for i, pos1 in enumerate(sorted_positions): for pos2 in
sorted_positions[i+1:]`. -/
def ordPairs {α : Type} : List α → List (α × α)
  | [] => []
  | x :: xs => xs.map (fun y => (x, y)) ++ ordPairs xs

/-- One step of the edge construction: look up both bounding boxes and add
the edge when the front box blocks the back one. -/
def addBlockEdge (bbs : List (String × BBox)) (G : DiGraph)
    (pq : Position × Position) : DiGraph :=
  match (bbs.find? (fun kv => kv.1 = pq.1.item_id)),
        (bbs.find? (fun kv => kv.1 = pq.2.item_id)) with
  | some kv1, some kv2 =>
    if blocksBB kv1.2 kv2.2 then G.add_edge pq.1.item_id pq.2.item_id else G
  | _, _ => G

/-- `build_dependency_graph_optimized` from `src/algorithms/retrieval.py`
(lines 196-272): one node per position's item id; bounding boxes for the
resolvable items; positions sorted by `z` (stable); an edge
`pos1.item_id -> pos2.item_id` for each sorted pair `i < j` whose boxes
satisfy `blocksBB`. -/
def build_dependency_graph_optimized (getItem : String → Option Item)
    (positions : List Position) : DiGraph :=
  let G0 := positions.foldl (fun G p => G.add_node p.item_id) ⟨[], []⟩
  let bbs := positions.foldl (fun m p =>
    match getItem p.item_id with
    | none => m
    | some it => dictInsert m p.item_id (positionBBox it p)) []
  let sorted_positions := positions.insertionSort (fun a b => a.z ≤ b.z)
  (ordPairs sorted_positions).foldl (addBlockEdge bbs) G0

/-- Bounded reachability: `reachN E n u v` holds iff some walk of at most
`n` edges of `E` leads from `u` to `v`. -/
def reachN (E : List (String × String)) : ℕ → String → String → Bool
  | 0, u, v => u = v
  | n + 1, u, v =>
    (u = v) || E.any (fun e => e.1 = u && reachN E n e.2 v)

/-- Reachability: some walk along `E` leads from `u` to `v`.  This is what
`networkx.has_path` decides. -/
def Reaches (E : List (String × String)) (u v : String) : Prop :=
  ∃ n, reachN E n u v = true

/-- Reachability by a nonempty walk. -/
def ReachesPos (E : List (String × String)) (u v : String) : Prop :=
  ∃ w, (u, w) ∈ E ∧ Reaches E w v

/-- A graph is acyclic when no node reaches itself by a nonempty walk. -/
def Acyclic (E : List (String × String)) : Prop :=
  ∀ u, ¬ ReachesPos E u u

/-- `networkx.has_path` on the model graph: since a minimal walk repeats
no node, searching to depth `|E|` is exhaustive (proved below). -/
def has_path (G : DiGraph) (u v : String) : Bool :=
  reachN G.edges G.edges.length u v

/-- `v` has no incoming edge whose source is still unprocessed — the
selection criterion of Kahn's algorithm, which `networkx.topological_sort`
implements. -/
def noIncoming (E : List (String × String)) (rem : List String) (v : String) : Bool :=
  !(E.any (fun e => decide (e.1 ∈ rem) && e.2 = v))

/-- Kahn's algorithm with explicit fuel: repeatedly emit a node of the
remaining set with no incoming edge from the remaining set; fail (`none`)
when none exists while nodes remain — exactly the condition under which
`networkx.topological_sort` raises `NetworkXUnfeasible`. -/
def topoAux (E : List (String × String)) : ℕ → List String → Option (List String)
  | 0, rem => if rem.isEmpty then some [] else none
  | fuel + 1, rem =>
    match rem.find? (fun v => noIncoming E rem v) with
    | none => if rem.isEmpty then some [] else none
    | some v => (topoAux E fuel (rem.erase v)).map (fun l => v :: l)

/-- `networkx.topological_sort` on the model graph. -/
def topological_sort (G : DiGraph) : Option (List String) :=
  topoAux G.edges G.nodes.length G.nodes

/-- `networkx.DiGraph.subgraph`: restrict nodes and edges to a node set. -/
def subgraph (G : DiGraph) (keep : List String) : DiGraph :=
  ⟨G.nodes.filter (fun n => n ∈ keep),
   G.edges.filter (fun e => e.1 ∈ keep ∧ e.2 ∈ keep)⟩

/-- `find_items_to_move_optimized` from `src/algorithms/retrieval.py`
(lines 274-327): collect every node other than the target with a path to
the target, topologically sort the induced subgraph and reverse; on a
cycle fall back to the blocking set in arbitrary (here: node) order. -/
def find_items_to_move_optimized (G : DiGraph) (target_item_id : String) :
    List String :=
  let blocking := G.nodes.filter (fun node =>
    node ≠ target_item_id && has_path G node target_item_id)
  if blocking.isEmpty then []
  else
    let sub := subgraph G blocking
    match topoAux sub.edges sub.nodes.length sub.nodes with
    | some move_order => move_order.reverse
    | none => blocking

/-- One retrieval step: the `action`/`item_id`/`item_name` dictionaries
emitted by `generate_retrieval_steps`. -/
structure RetrievalStep where
  action : String
  item_id : String
  item_name : String
deriving DecidableEq, Repr

/-- `generate_retrieval_steps` from `src/algorithms/retrieval.py`
(lines 10-112).  The catalog lookups are the injected collaborators; the
wall-clock `execution_time` debugging annotation on the last step is not
part of the action sequence and is not modelled. -/
def generate_retrieval_steps (getItem : String → Option Item)
    (getContainer : String → Option Container)
    (getPositions : String → List Position)
    (item_id container_id : String) : List RetrievalStep :=
  match getItem item_id, getContainer container_id with
  | some item, some _ =>
    let positions := getPositions container_id
    match positions.find? (fun p => p.item_id = item_id) with
    | none => []
    | some target_position =>
      if is_visible getItem target_position positions then
        [⟨"retrieve", item_id, item.name⟩]
      else
        let dependency_graph := build_dependency_graph_optimized getItem positions
        let items_to_move := find_items_to_move_optimized dependency_graph item_id
        (items_to_move.foldr (fun b acc =>
          (match getItem b with
           | none => []
           | some bi => [⟨"remove", b, bi.name⟩, ⟨"setAside", b, bi.name⟩]) ++ acc) [])
        ++ [⟨"retrieve", item_id, item.name⟩]
        ++ (items_to_move.reverse.foldr (fun b acc =>
          (match getItem b with
           | none => []
           | some bi => [⟨"placeBack", b, bi.name⟩]) ++ acc) [])
  | _, _ => []

/-! Placement engine, `src/algorithms/placement.py`, and the grid
primitives it uses from `src/algorithms/spatial.py`. -/

/-- Python `int()` on a rational: truncation toward zero. -/
def pyInt (q : ℚ) : Int :=
  if q < 0 then -(Int.floor (-q)) else Int.floor q

/-- Python `range(0, stop, step)` for a positive `step`. -/
def pyRange (stop step : Int) : List Int :=
  if stop ≤ 0 ∨ step ≤ 0 then []
  else (List.range ((stop + step - 1) / step).toNat).map (fun i => (i : Int) * step)

/-- A half-open grid region `[x1,x2) x [y1,y2) x [z1,z2)` marked occupied. -/
structure MarkBox where
  x1 : ℕ
  x2 : ℕ
  y1 : ℕ
  y2 : ℕ
  z1 : ℕ
  z2 : ℕ
deriving DecidableEq, Repr

/-- The occupancy grid of a container: the `numpy` array of
`_create_container_grid`, represented by its shape and the list of regions
that were set to 1. -/
structure Grid where
  sx : ℕ
  sy : ℕ
  sz : ℕ
  boxes : List MarkBox
deriving DecidableEq, Repr

/-- `np.any(occupied_space[x1:x2, y1:y2, z1:z2])`: some marked region
meets the queried slice. -/
def Grid.anyOccupied (g : Grid) (x1 x2 y1 y2 z1 z2 : ℕ) : Bool :=
  g.boxes.any (fun b =>
    max x1 b.x1 < min x2 b.x2 &&
    max y1 b.y1 < min y2 b.y2 &&
    max z1 b.z1 < min z2 b.z2)

/-- `is_valid_position` from `src/algorithms/spatial.py` (lines 6-42):
bounds checks (rejecting when `coordinate + extent >= shape`), integer
truncation, a second bounds check, then an occupancy query. -/
def is_valid_position (position dimensions : ℚ × ℚ × ℚ) (g : Grid) : Bool :=
  let (x, y, z) := position
  let (width, height, depth) := dimensions
  if x < 0 ∨ y < 0 ∨ z < 0 ∨
     (g.sx : ℚ) ≤ x + width ∨ (g.sy : ℚ) ≤ y + height ∨ (g.sz : ℚ) ≤ z + depth then
    false
  else
    let x1 := (pyInt x).toNat
    let y1 := (pyInt y).toNat
    let z1 := (pyInt z).toNat
    let x2 := (pyInt (x + width)).toNat
    let y2 := (pyInt (y + height)).toNat
    let z2 := (pyInt (z + depth)).toNat
    if g.sx ≤ x2 ∨ g.sy ≤ y2 ∨ g.sz ≤ z2 then false
    else !(g.anyOccupied x1 x2 y1 y2 z1 z2)

/-- `_create_container_grid` from `src/algorithms/placement.py`
(lines 387-434): a grid one cell larger than the truncated container
dimensions, with every resolvable position's oriented box marked
(`grid[x1:x2, y1:y2, z1:z2] = 1` with the upper indices clamped to the
shape). -/
def create_container_grid (getItem : String → Option Item) (container : Container)
    (positions : List Position) : Grid :=
  let sx := (pyInt container.width + 1).toNat
  let sy := (pyInt container.height + 1).toNat
  let sz := (pyInt container.depth + 1).toNat
  let boxes := positions.filterMap (fun p =>
    match getItem p.item_id with
    | none => none
    | some it =>
      let (w, h, d) := orientedDims it p.orientation
      some { x1 := (pyInt p.x).toNat, x2 := min ((pyInt (p.x + w)).toNat + 1) sx,
             y1 := (pyInt p.y).toNat, y2 := min ((pyInt (p.y + h)).toNat + 1) sy,
             z1 := (pyInt p.z).toNat, z2 := min ((pyInt (p.z + d)).toNat + 1) sz })
  ⟨sx, sy, sz, boxes⟩

/-- `_calculate_corner_score` from `src/algorithms/placement.py`
(lines 471-514): the fraction of the six item faces lying within 0.01 of a
container wall. -/
def calculate_corner_score (position dimensions : ℚ × ℚ × ℚ) (container : Container) : ℚ :=
  let (x, y, z) := position
  let (width, height, depth) := dimensions
  let touches : ℚ :=
    (if |x| < 1/100 then 1 else 0) +
    (if |x + width - container.width| < 1/100 then 1 else 0) +
    (if |y| < 1/100 then 1 else 0) +
    (if |y + height - container.height| < 1/100 then 1 else 0) +
    (if |z| < 1/100 then 1 else 0) +
    (if |z + depth - container.depth| < 1/100 then 1 else 0)
  touches / 6

/-- `_calculate_placement_score` from `src/algorithms/placement.py`
(lines 436-469).  The volume-utilization term divides by the container
volume with no zero guard, so it is fallible; the divisions by the
literals 100 and 6 cannot fail and stay pure. -/
def calculate_placement_score (item : Item) (container : Container)
    (position dimensions : ℚ × ℚ × ℚ) : Except Unit ℚ :=
  -- The division by the container volume is the only failure point; the
  -- remaining terms are pure, so hoisting the fallible division in front
  -- computes the same value and fails in exactly the same cases.
  (safeDiv (dimensions.1 * dimensions.2.1 * dimensions.2.2)
      (container.width * container.height * container.depth)).map (fun volume_frac =>
    let base := (item.priority : ℚ) / 100
    let zone_bonus : ℚ :=
      match item.preferred_zone with
      | some z => if z ≠ "" ∧ z = container.zone then 1/2 else 0
      | none => 0
    let accessibility := calculate_accessibility position dimensions container
    let volume_score := min (volume_frac * 10) (1/5)
    let corner_score := calculate_corner_score position dimensions container
    base + zone_bonus + accessibility * (3/10) + volume_score + corner_score * (1/10))

/-- `_calculate_max_possible_score` from `src/algorithms/placement.py`
(lines 356-385): like the placement score but with perfect accessibility
and no corner term; shares the unguarded division by container volume. -/
def calculate_max_possible_score (item : Item) (container : Container)
    (dimensions : ℚ × ℚ × ℚ) : Except Unit ℚ :=
  (safeDiv (dimensions.1 * dimensions.2.1 * dimensions.2.2)
      (container.width * container.height * container.depth)).map (fun volume_frac =>
    let base := (item.priority : ℚ) / 100
    let zone_bonus : ℚ :=
      match item.preferred_zone with
      | some z => if z ≠ "" ∧ z = container.zone then 1/2 else 0
      | none => 0
    let volume_score := min (volume_frac * 10) (1/5)
    base + zone_bonus + 3/10 + volume_score)

/-- `_find_containers_for_item_orientations` from
`src/algorithms/placement.py` (lines 163-185). -/
def find_containers_for_item_orientations (item : Item) (containers : List Container) :
    List Container :=
  containers.filter (fun c =>
    item.get_possible_orientations.any (fun whd =>
      whd.1 ≤ c.width && whd.2.1 ≤ c.height && whd.2.2 ≤ c.depth))

/-- `_generate_strategic_positions` from `src/algorithms/placement.py`
(lines 303-354): the eight corners with nonnegative coordinates, then the
floor and front-face sweeps, appended without duplicates. -/
def generate_strategic_positions (container : Container) (width height depth : ℚ) :
    List (ℚ × ℚ × ℚ) :=
  let corners : List (ℚ × ℚ × ℚ) :=
    [ (0, 0, 0),
      (container.width - width, 0, 0),
      (0, container.height - height, 0),
      (container.width - width, container.height - height, 0),
      (0, 0, container.depth - depth),
      (container.width - width, 0, container.depth - depth),
      (0, container.height - height, container.depth - depth),
      (container.width - width, container.height - height, container.depth - depth) ]
  let positions := corners.filter (fun c => 0 ≤ c.1 && 0 ≤ c.2.1 && 0 ≤ c.2.2)
  let step := max 1 (pyInt (container.width / 5))
  let xs := pyRange (pyInt (container.width - width + 1)) step
  let zs := pyRange (pyInt (container.depth - depth + 1)) step
  let ys := pyRange (pyInt (container.height - height + 1)) step
  let floor_positions := xs.foldr (fun x acc =>
    (zs.map (fun z => ((x : ℚ), (0 : ℚ), (z : ℚ)))) ++ acc) []
  let front_positions := xs.foldr (fun x acc =>
    (ys.map (fun y => ((x : ℚ), (y : ℚ), (0 : ℚ)))) ++ acc) []
  (floor_positions ++ front_positions).foldl
    (fun ps pos => if pos ∈ ps then ps else ps ++ [pos]) positions

/-- A heap entry of `_find_best_placement`: the Python tuple
`(-container_score, container)`. -/
abbrev HeapEntry : Type := ℚ × Container

/-- Python `<` on two heap entries: tuple comparison compares the numeric
parts and, when they are equal, falls through to comparing the ORM
`Container` objects, which defines no ordering — a `TypeError`. -/
def heapLt (a b : HeapEntry) : Except Unit Bool :=
  if a.1 = b.1 then .error () else .ok (decide (a.1 < b.1))

/-- The `_siftdown` loop of CPython `heapq`: bubble `newitem` up from
`pos` toward `startpos`, comparing with each parent. -/
def siftdownLoop (startpos : ℕ) : ℕ → List HeapEntry → ℕ → HeapEntry →
    Except Unit (List HeapEntry)
  | 0, heap, pos, newitem => .ok (heap.set pos newitem)
  | fuel + 1, heap, pos, newitem =>
    if startpos < pos then do
      let parentpos := (pos - 1) / 2
      let parent := heap.getD parentpos newitem
      let lt ← heapLt newitem parent
      if lt then siftdownLoop startpos fuel (heap.set pos parent) parentpos newitem
      else .ok (heap.set pos newitem)
    else .ok (heap.set pos newitem)

/-- CPython `heapq.heappush`. -/
def heapPush (heap : List HeapEntry) (x : HeapEntry) : Except Unit (List HeapEntry) :=
  siftdownLoop 0 (heap.length + 1) (heap ++ [x]) heap.length x

/-- The `_siftup` walk of CPython `heapq`: move the smaller child up while
descending, then restore `newitem` by a final `_siftdown`. -/
def siftupLoop : ℕ → List HeapEntry → ℕ → HeapEntry → Except Unit (List HeapEntry)
  | 0, heap, pos, newitem => siftdownLoop 0 (pos + 1) (heap.set pos newitem) pos newitem
  | fuel + 1, heap, pos, newitem =>
    let endpos := heap.length
    let childpos := 2 * pos + 1
    if childpos < endpos then do
      let rightpos := childpos + 1
      let cp ←
        if rightpos < endpos then do
          let lt ← heapLt (heap.getD childpos newitem) (heap.getD rightpos newitem)
          pure (if lt then childpos else rightpos)
        else pure childpos
      siftupLoop fuel (heap.set pos (heap.getD cp newitem)) cp newitem
    else
      siftdownLoop 0 (pos + 1) (heap.set pos newitem) pos newitem

/-- CPython `heapq.heappop`. -/
def heapPop (heap : List HeapEntry) : Except Unit (HeapEntry × List HeapEntry) :=
  match heap.getLast? with
  | none => .error ()
  | some lastelt =>
    let rest := heap.dropLast
    if rest.isEmpty then .ok (lastelt, [])
    else do
      let returnitem := rest.getD 0 lastelt
      let newheap ← siftupLoop rest.length (rest.set 0 lastelt) 0 lastelt
      .ok (returnitem, newheap)

/-- A found placement: container, origin and orientation index. -/
abbrev BestPlacement : Type := Container × (ℚ × ℚ × ℚ) × ℕ

/-- The per-call cache `container_grid_cache`, a Python dict keyed by
container id. -/
abbrev GridCache : Type := List (String × Grid)

/-- The strategic-position loop of `_find_best_placement` (lines 262-278):
score each valid position, keep the best, and return immediately once the
score exceeds 1.8. -/
def stratLoop (item : Item) (container : Container) (dimensions : ℚ × ℚ × ℚ)
    (oidx : ℕ) (grid : Grid) :
    List (ℚ × ℚ × ℚ) → ℚ → Option BestPlacement →
    Except Unit (ℚ × Option BestPlacement × Bool)
  | [], best_score, best => .ok (best_score, best, false)
  | pos :: rest, best_score, best =>
    if is_valid_position pos dimensions grid then do
      let score ← calculate_placement_score item container pos dimensions
      if best_score < score then
        let best2 := some (container, pos, oidx)
        if 9/5 < score then .ok (score, best2, true)
        else stratLoop item container dimensions oidx grid rest score best2
      else stratLoop item container dimensions oidx grid rest best_score best
    else stratLoop item container dimensions oidx grid rest best_score best

/-- The fallback grid-sweep loop of `_find_best_placement`
(lines 282-299): like the strategic loop but with no early return. -/
def sweepLoop (item : Item) (container : Container) (dimensions : ℚ × ℚ × ℚ)
    (oidx : ℕ) (grid : Grid) :
    List (ℚ × ℚ × ℚ) → ℚ → Option BestPlacement →
    Except Unit (ℚ × Option BestPlacement)
  | [], best_score, best => .ok (best_score, best)
  | pos :: rest, best_score, best =>
    if is_valid_position pos dimensions grid then do
      let score ← calculate_placement_score item container pos dimensions
      if best_score < score then
        sweepLoop item container dimensions oidx grid rest score (some (container, pos, oidx))
      else sweepLoop item container dimensions oidx grid rest best_score best
    else sweepLoop item container dimensions oidx grid rest best_score best

/-- The orientation loop of `_find_best_placement` (lines 244-299):
skip orientations that do not fit or whose optimistic score cannot beat
the best recorded before this container, try the strategic positions, and
sweep a coarse grid when the best score is still below 1.5. -/
def orientLoop (item : Item) (container : Container) (grid : Grid)
    (min_required_score : ℚ) :
    List (ℕ × (ℚ × ℚ × ℚ)) → ℚ → Option BestPlacement →
    Except Unit (ℚ × Option BestPlacement × Bool)
  | [], best_score, best => .ok (best_score, best, false)
  | (oidx, dims) :: rest, best_score, best =>
    if container.width < dims.1 ∨ container.height < dims.2.1 ∨ container.depth < dims.2.2 then
      orientLoop item container grid min_required_score rest best_score best
    else do
      let max_possible ← calculate_max_possible_score item container dims
      if max_possible ≤ min_required_score then
        orientLoop item container grid min_required_score rest best_score best
      else do
        let strategic := generate_strategic_positions container dims.1 dims.2.1 dims.2.2
        let (s1, b1, early) ← stratLoop item container dims oidx grid strategic best_score best
        if early then .ok (s1, b1, true)
        else if s1 < 3/2 then do
          let step_size := max 1 (min 5 (pyInt (min container.width container.height / 10)))
          let xs := pyRange (pyInt (container.width - dims.1 + 1)) step_size
          let ys := pyRange (pyInt (container.height - dims.2.1 + 1)) step_size
          let zs := pyRange (pyInt (container.depth - dims.2.2 + 1)) step_size
          let sweep := xs.foldr (fun x acc =>
            (ys.foldr (fun y acc2 =>
              (zs.map (fun z => ((x : ℚ), (y : ℚ), (z : ℚ)))) ++ acc2) []) ++ acc) []
          let (s2, b2) ← sweepLoop item container dims oidx grid sweep s1 b1
          orientLoop item container grid min_required_score rest s2 b2
        else
          orientLoop item container grid min_required_score rest s1 b1

/-- The container loop of `_find_best_placement` (lines 226-299): pop the
heap, fetch or build the cached grid, freeze the pruning threshold at the
best score recorded so far, and run the orientation loop. -/
def containerLoop (getItem : String → Option Item)
    (getPositions : String → List Position) (item : Item) :
    ℕ → List HeapEntry → ℚ → Option BestPlacement → GridCache →
    Except Unit (Option BestPlacement × GridCache)
  | 0, _, _, best, cache => .ok (best, cache)
  | fuel + 1, heap, best_score, best, cache =>
    if heap.isEmpty then .ok (best, cache)
    else do
      let (entry, heap2) ← heapPop heap
      let container := entry.2
      let (grid, cache2) :=
        match cache.find? (fun kv => kv.1 = container.id) with
        | some kv => (kv.2, cache)
        | none =>
          let g := create_container_grid getItem container (getPositions container.id)
          (g, cache ++ [(container.id, g)])
      let min_required_score := best_score
      let (s, b, early) ← orientLoop item container grid min_required_score
        item.get_possible_orientations.enum best_score best
      if early then .ok (b, cache2)
      else containerLoop getItem getPositions item fuel heap2 s b cache2

/-- `_find_best_placement` from `src/algorithms/placement.py`
(lines 187-301): build the preference heap over the candidate containers
(`heapq.heappush` with `(-container_score, container)` tuples — a
`TypeError` as soon as two equal scores are compared), then run the
container loop starting from score -1. -/
def find_best_placement (getItem : String → Option Item)
    (getPositions : String → List Position) (item : Item)
    (containers : List Container) (cache : GridCache) :
    Except Unit (Option BestPlacement × GridCache) := do
  let heap ← containers.foldlM (fun heap c =>
    let is_preferred :=
      match item.preferred_zone with
      | some z => decide (z ≠ "" ∧ z = c.zone)
      | none => false
    let container_score : ℚ := if is_preferred then 3/2 else 1
    heapPush heap (-container_score, c)) []
  containerLoop getItem getPositions item heap.length heap (-1) none cache

/-- Coordinates under the `width`/`depth`/`height` keys used by the
placement dictionaries. -/
structure CoordsWDH where
  width : ℚ
  depth : ℚ
  height : ℚ
deriving DecidableEq, Repr

/-- A `start_coordinates`/`end_coordinates` pair. -/
structure BoxWDH where
  start_coordinates : CoordsWDH
  end_coordinates : CoordsWDH
deriving DecidableEq, Repr

/-- One rearrangement step dictionary. -/
structure MoveStep where
  action : String
  item_id : String
  from_container : String
  from_position : BoxWDH
  to_container : String
  to_position : BoxWDH
deriving DecidableEq, Repr

/-- One placement dictionary of `optimize_placement`'s output. -/
structure PlacementRec where
  item_id : String
  container_id : String
  position : BoxWDH
  orientation : ℕ
deriving DecidableEq, Repr

/-- The container scan of `_find_rearrangement_opportunity`
(lines 548-631), reached only when every container's position list is
empty (otherwise the sort key has already raised). -/
def rearrLoop (getItem : String → Option Item)
    (getPositions : String → List Position) (item : Item)
    (containers : List Container) :
    List Container → Option (Container × (ℚ × ℚ × ℚ) × List MoveStep)
  | [] => none
  | container :: rest =>
    if container.width < item.width ∨ container.height < item.height ∨
       container.depth < item.depth then
      rearrLoop getItem getPositions item containers rest
    else
      let positions := getPositions container.id
      if positions.isEmpty then rearrLoop getItem getPositions item containers rest
      else
        let low_priority_positions := positions.filterMap (fun p =>
          match getItem p.item_id with
          | none => none
          | some pit =>
            if pit.priority < item.priority ∧ item.volume * (4/5) ≤ pit.volume then
              some (p, pit)
            else none)
        if low_priority_positions.isEmpty then
          rearrLoop getItem getPositions item containers rest
        else
          let nv : Position × Item → ℕ := fun x => if x.1.visible then 0 else 1
          let sorted_low := low_priority_positions.insertionSort (fun a b =>
            a.2.priority < b.2.priority ∨ (a.2.priority = b.2.priority ∧ nv a ≤ nv b))
          match sorted_low with
          | [] => rearrLoop getItem getPositions item containers rest
          | (position_to_move, item_to_move) :: _ =>
            let target := containers.find? (fun oc =>
              oc.id ≠ container.id &&
              (item_to_move.width ≤ oc.width && item_to_move.height ≤ oc.height &&
               item_to_move.depth ≤ oc.depth) &&
              -- `occupied_volume` sums `p_item.volume()` over the target's
              -- positions filtered by `hasattr(p_item, 'volume')`; `Position`
              -- objects have no such attribute, so the sum is always 0.
              item_to_move.volume ≤ oc.volume - 0)
            match target with
            | some target_container =>
              some (container,
                (position_to_move.x, position_to_move.y, position_to_move.z),
                [{ action := "move", item_id := item_to_move.id,
                   from_container := container.id,
                   from_position :=
                     { start_coordinates := ⟨position_to_move.x, position_to_move.z,
                         position_to_move.y⟩,
                       end_coordinates := ⟨position_to_move.x + item_to_move.width,
                         position_to_move.z + item_to_move.depth,
                         position_to_move.y + item_to_move.height⟩ },
                   to_container := target_container.id,
                   to_position :=
                     { start_coordinates := ⟨0, 0, 0⟩,
                       end_coordinates := ⟨item_to_move.width, item_to_move.depth,
                         item_to_move.height⟩ } }])
            | none => rearrLoop getItem getPositions item containers rest

/-- `_find_rearrangement_opportunity` from `src/algorithms/placement.py`
(lines 516-632).  Its sort key evaluates `p_item.volume()` for each
`Position` object in `container.positions`; `Position` defines no
`volume` method, so the sort raises `AttributeError` whenever any
container holds a position.  When none does, every key equals the
container volume and the loop runs over the (stably) sorted containers. -/
def find_rearrangement_opportunity (getItem : String → Option Item)
    (getPositions : String → List Position) (item : Item)
    (containers : List Container) :
    Except Unit (Option (Container × (ℚ × ℚ × ℚ) × List MoveStep)) :=
  if containers.all (fun c => (getPositions c.id).isEmpty) then
    let containers_sorted := containers.insertionSort (fun a b => a.volume ≤ b.volume)
    .ok (rearrLoop getItem getPositions item containers containers_sorted)
  else .error ()

/-- A walk along `E` from `u` through the listed intermediate nodes to `v`. -/
def chainOK (E : List (String × String)) : String → List String → String → Prop
  | u, [], v => u = v
  | u, w :: l, v => (u, w) ∈ E ∧ chainOK E w l v

/-- Well-formedness invariant maintained by `networkx.DiGraph`: every edge
endpoint is a node. -/
def DiGraph.WF (G : DiGraph) : Prop :=
  ∀ e ∈ G.edges, e.1 ∈ G.nodes ∧ e.2 ∈ G.nodes

/-- `l` is a topological order of `G`: it enumerates the nodes without
repetition and every edge goes forward in it. -/
def IsTopoOrder (l : List String) (G : DiGraph) : Prop :=
  (∀ x, x ∈ l ↔ x ∈ G.nodes) ∧ l.Nodup ∧
    ∀ e ∈ G.edges, l.indexOf e.1 < l.indexOf e.2

/-- The two bounding boxes overlap in both the x and the y projection. -/
def xyOverlap (bb tb : BBox) : Prop :=
  (bb.x_min < tb.x_max ∧ tb.x_min < bb.x_max) ∧
  (bb.y_min < tb.y_max ∧ tb.y_min < bb.y_max)

/-- Example item A of the stacked-pair scenario (10 x 10 x 10). -/
def exItemA : Item := ⟨"A", "A", 10, 10, 10, 1, 50, none⟩

/-- Example item B of the stacked-pair scenario (10 x 10 x 10). -/
def exItemB : Item := ⟨"B", "B", 10, 10, 10, 1, 50, none⟩

/-- Catalog lookup over the two example items. -/
def exLookup : String → Option Item := fun s =>
  if s = "A" then some exItemA else if s = "B" then some exItemB else none

/-- Item A sits at the open face, covering x,y in [0,10]. -/
def exPosA : Position := ⟨"p1", "A", "c1", 0, 0, 0, 0, true⟩

/-- Item B sits behind A at z = 5 with the same footprint. -/
def exPosB : Position := ⟨"p2", "B", "c1", 0, 0, 5, 0, false⟩

/-- The example container. -/
def exContainer : Container := ⟨"c1", "c1", "Z", 100, 85, 200, none⟩

/-- Container lookup for the example container. -/
def exContainerLookup : String → Option Container := fun c =>
  if c = "c1" then some exContainer else none

/-- The result dictionary of `optimize_placement` (the wall-clock
`execution_time` entry is not modelled). -/
structure PlacementResult where
  placements : List PlacementRec
  rearrangements : List MoveStep
deriving DecidableEq, Repr

/-- The running state of `optimize_placement`'s item loop. -/
structure PlaceState where
  placements : List PlacementRec
  rearrangements : List MoveStep
  cache : GridCache
deriving DecidableEq, Repr

/-- The body of `optimize_placement`'s per-item loop (lines 56-152). -/
def placeStep (getItem : String → Option Item)
    (getPositions : String → List Position) (containers : List Container)
    (st : PlaceState) (item : Item) : Except Unit PlaceState := do
  let valid0 := containers.filter (fun c =>
    item.width ≤ c.width && item.height ≤ c.height && item.depth ≤ c.depth)
  let valid_containers :=
    if valid0.isEmpty then find_containers_for_item_orientations item containers
    else valid0
  let (placement1, cache1) ←
    match item.preferred_zone with
    | some z =>
      if z ≠ "" ∧ containers.any (fun c => c.zone = z) then
        let preferred_containers :=
          (containers.filter (fun c => c.zone = z)).filter
            (fun c => c ∈ valid_containers)
        if preferred_containers.isEmpty then pure (none, st.cache)
        else find_best_placement getItem getPositions item preferred_containers st.cache
      else pure (none, st.cache)
    | none => pure (none, st.cache)
  let (placement2, cache2) ←
    match placement1 with
    | some p => pure (some p, cache1)
    | none =>
      if valid_containers.isEmpty then pure (none, cache1)
      else find_best_placement getItem getPositions item valid_containers cache1
  match placement2 with
  | none => do
    match ← find_rearrangement_opportunity getItem getPositions item containers with
    | none => .ok { st with cache := cache2 }
    | some (container, position, steps) =>
      .ok { placements := st.placements ++
              [{ item_id := item.id, container_id := container.id,
                 position :=
                   { start_coordinates := ⟨position.1, position.2.1, position.2.2⟩,
                     end_coordinates := ⟨position.1 + item.width,
                       position.2.1 + item.depth, position.2.2 + item.height⟩ },
                 orientation := 0 }],
            rearrangements := st.rearrangements ++ steps,
            cache := cache2 }
  | some (container, position, orientation_idx) =>
    let dims := item.get_possible_orientations.getD orientation_idx
      (item.width, item.height, item.depth)
    let cache3 :=
      if cache2.any (fun kv => kv.1 = container.id) then
        cache2.map (fun kv =>
          if kv.1 = container.id then
            let g := kv.2
            let x1 := (pyInt position.1).toNat
            let y1 := (pyInt position.2.1).toNat
            let z1 := (pyInt position.2.2).toNat
            let x2 := min ((pyInt (position.1 + dims.1)).toNat) (g.sx - 1)
            let y2 := min ((pyInt (position.2.1 + dims.2.1)).toNat) (g.sy - 1)
            let z2 := min ((pyInt (position.2.2 + dims.2.2)).toNat) (g.sz - 1)
            (kv.1, { g with boxes := g.boxes ++
              [{ x1 := x1, x2 := x2 + 1, y1 := y1, y2 := y2 + 1,
                 z1 := z1, z2 := z2 + 1 }] })
          else kv)
      else cache2
    .ok { placements := st.placements ++
            [{ item_id := item.id, container_id := container.id,
               position :=
                 { start_coordinates := ⟨position.1, position.2.1, position.2.2⟩,
                   end_coordinates := ⟨position.1 + dims.1,
                     position.2.1 + dims.2.2, position.2.2 + dims.2.1⟩ },
               orientation := orientation_idx }],
          rearrangements := st.rearrangements,
          cache := cache3 }

/-- The item ordering of `optimize_placement` line 38: ascending stable
sort by the key `(-priority, -(width*height*depth))`. -/
def itemSortRel (a b : Item) : Prop :=
  b.priority < a.priority ∨
    (a.priority = b.priority ∧
      b.width * b.height * b.depth ≤ a.width * a.height * a.depth)

instance : DecidableRel itemSortRel := fun a b => by
  unfold itemSortRel; infer_instance

/-- `optimize_placement` from `src/algorithms/placement.py` (lines 12-161):
sort the items by priority then volume and run the per-item loop, threading
the shared grid cache. -/
def optimize_placement (getItem : String → Option Item)
    (getPositions : String → List Position) (items : List Item)
    (containers : List Container) : Except Unit PlacementResult := do
  let sorted_items := items.insertionSort itemSortRel
  let final ← sorted_items.foldlM (placeStep getItem getPositions containers)
    ⟨[], [], []⟩
  .ok ⟨final.placements, final.rearrangements⟩

/-! Theorems. -/

/-- C10: if the item id or the container id does not resolve, or the item
has no position recorded in the container, `generate_retrieval_steps`
returns the empty step list. -/
theorem retrieval_missing_reference_empty
    (getItem : String → Option Item) (getContainer : String → Option Container)
    (getPositions : String → List Position) (item_id container_id : String)
    (h : getItem item_id = none ∨ getContainer container_id = none ∨
      (getPositions container_id).find? (fun p => p.item_id = item_id) = none) :
    generate_retrieval_steps getItem getContainer getPositions item_id container_id = [] := by
  unfold generate_retrieval_steps
  rcases h with h | h | h
  · rw [h]
  · rw [h]
    cases getItem item_id <;> rfl
  · cases hI : getItem item_id with
    | none => rfl
    | some item =>
      cases hC : getContainer container_id with
      | none => rfl
      | some c => simp only [h]

/-- C10 witness: unresolvable item id. -/
theorem retrieval_missing_reference_empty_witness :
    generate_retrieval_steps (fun _ => none) (fun _ => none) (fun _ => []) "X" "C" = [] :=
  retrieval_missing_reference_empty (fun _ => none) (fun _ => none) (fun _ => [])
    "X" "C" (Or.inl rfl)

/-- C5 counterexample: a box of depth 4 placed touching the open face of a
container of depth 10 gets accessibility 4/5, not 1.0 — the linear formula
uses the box's center depth, which is 2, not 0. -/
theorem accessibility_open_face_counterexample :
    (0 : ℚ) < (Container.mk "c1" "c1" "Z" 100 10 200 none).depth ∧
    calculate_accessibility (0, 0, 0) (1, 1, 4)
      (Container.mk "c1" "c1" "Z" 100 10 200 none) = 4/5 ∧
    ((4 : ℚ)/5) ≠ 1 := by
  with_unfolding_all decide

/-- C5 amended: for positive container depth the accessibility is the
clamped linear function `max 0 (min 1 (1 - center/depth))` of the box
center depth `center = z + d/2`: it equals 1.0 exactly when the center is
at (or before) the open face — a box of positive depth at z = 0 gets
`1 - d/(2*depth) < 1` — decreases linearly in the center coordinate and
reaches 0.0 when the center is at the far wall; a container of depth <= 0
gets 1.0; the result always lies in [0,1]. -/
theorem accessibility_amended (position dimensions : ℚ × ℚ × ℚ) (c : Container) :
    (c.depth ≤ 0 → calculate_accessibility position dimensions c = 1) ∧
    (0 < c.depth →
      ((position.2.2 + dimensions.2.2 / 2 ≤ 0 →
          calculate_accessibility position dimensions c = 1) ∧
       (c.depth ≤ position.2.2 + dimensions.2.2 / 2 →
          calculate_accessibility position dimensions c = 0) ∧
       (0 ≤ position.2.2 + dimensions.2.2 / 2 →
          position.2.2 + dimensions.2.2 / 2 ≤ c.depth →
          calculate_accessibility position dimensions c =
            1 - (position.2.2 + dimensions.2.2 / 2) / c.depth))) ∧
    0 ≤ calculate_accessibility position dimensions c ∧
    calculate_accessibility position dimensions c ≤ 1 := by
  unfold calculate_accessibility
  by_cases hd : c.depth ≤ 0
  · simp only [if_pos hd]
    refine ⟨fun _ => by trivial, fun h0 => absurd h0 (not_lt.mpr hd), by norm_num, by norm_num⟩
  · have hd' : 0 < c.depth := lt_of_not_ge hd
    simp only [if_neg hd]
    set center := position.2.2 + dimensions.2.2 / 2 with hcenter
    refine ⟨fun h0 => absurd hd' (not_lt.mpr h0), fun _ => ⟨?_, ?_, ?_⟩, ?_, ?_⟩
    · intro hc0
      have h1 : center / c.depth ≤ 0 := div_nonpos_iff.mpr (Or.inr ⟨hc0, hd'.le⟩)
      have h2 : (1 : ℚ) ≤ 1 - center / c.depth := by linarith
      rw [min_eq_left h2, max_eq_right (by norm_num : (0 : ℚ) ≤ 1)]
    · intro hcd
      have h1 : (1 : ℚ) ≤ center / c.depth := (one_le_div hd').mpr hcd
      have h2 : 1 - center / c.depth ≤ 0 := by linarith
      rw [min_eq_right (by linarith : 1 - center / c.depth ≤ 1), max_eq_left h2]
    · intro hc0 hcd
      have h1 : center / c.depth ≤ 1 := (div_le_one hd').mpr hcd
      have h0 : 0 ≤ center / c.depth := div_nonneg hc0 hd'.le
      rw [min_eq_right (by linarith : 1 - center / c.depth ≤ 1),
        max_eq_right (by linarith : (0 : ℚ) ≤ 1 - center / c.depth)]
    · exact le_max_left 0 _
    · exact max_le (by norm_num) (min_le_left 1 _)

/-- C5 amended witness: container depth 10, box depth 4 at z = 2, center
4, accessibility 1 - 4/10 = 3/5. -/
theorem accessibility_amended_witness :
    calculate_accessibility (0, 0, 2) (1, 1, 4)
      (Container.mk "c1" "c1" "Z" 100 10 200 none) = 3/5 := by
  have h := (accessibility_amended (0, 0, 2) (1, 1, 4)
    (Container.mk "c1" "c1" "Z" 100 10 200 none)).2.1 (by with_unfolding_all decide)
  have h2 := h.2.2 (by with_unfolding_all decide) (by with_unfolding_all decide)
  rw [h2]
  with_unfolding_all decide

/-- C4 counterexample: a zero-mass item makes the return-selection
ordering key `priority / (mass * volume)` divide by zero (the code raises
instead of computing the ordering), and a zero-volume container makes the
volume-ratio term of the placement score divide by zero instead of
contributing 0. -/
theorem division_guard_counterexample :
    knapsack_selection [⟨"Z0", "Z0", 1, 1, 1, 0, 50, none⟩] 10 10 = .error () ∧
    calculate_placement_score ⟨"I0", "I0", 0, 5, 5, 1, 50, none⟩
      ⟨"C0", "C0", "Z", 0, 10, 10, none⟩ (0, 0, 0) (0, 5, 5) = .error () := by
  exact ⟨by with_unfolding_all rfl, by with_unfolding_all rfl⟩

/-- C4 amended: only the accessibility routine guards its division —
returning the default 1.0 whenever the container depth is <= 0; the
volume-ratio term of the placement score divides by the container volume
with no guard and errors whenever that volume is 0, and the
return-selection ordering divides by `mass * volume` with no guard and
errors whenever some candidate has zero mass or volume. -/
theorem division_guard_amended :
    (∀ (position dimensions : ℚ × ℚ × ℚ) (c : Container), c.depth ≤ 0 →
        calculate_accessibility position dimensions c = 1) ∧
    (∀ (it : Item) (c : Container) (position dimensions : ℚ × ℚ × ℚ),
        c.width * c.height * c.depth = 0 →
        calculate_placement_score it c position dimensions = .error ()) ∧
    (∀ (items : List Item) (w v : ℚ), (∃ it ∈ items, it.mass * it.volume = 0) →
        knapsack_selection items w v = .error ()) := by
  refine ⟨?_, ?_, ?_⟩
  · intro p d c h
    unfold calculate_accessibility
    rw [if_pos h]
  · intro it c p d h
    unfold calculate_placement_score safeDiv
    rw [if_pos h]
    rfl
  · rintro items w v ⟨it, hmem, hz⟩
    unfold knapsack_selection
    rw [if_neg]
    intro hall
    rw [List.all_eq_true] at hall
    have := hall it hmem
    simp only [decide_eq_true_eq] at this
    exact this hz

/-- C4 amended witness: a zero-depth container gets accessibility 1.0; a
zero-mass candidate makes the return selection error. -/
theorem division_guard_amended_witness :
    calculate_accessibility (0, 0, 0) (1, 1, 1)
      (Container.mk "C" "C" "Z" 5 0 5 none) = 1 ∧
    knapsack_selection [⟨"W", "W", 2, 2, 2, 0, 10, none⟩] 5 5 = .error () := by
  constructor
  · exact division_guard_amended.1 (0, 0, 0) (1, 1, 1)
      (Container.mk "C" "C" "Z" 5 0 5 none) (by with_unfolding_all decide)
  · exact division_guard_amended.2.2 [⟨"W", "W", 2, 2, 2, 0, 10, none⟩] 5 5
      ⟨⟨"W", "W", 2, 2, 2, 0, 10, none⟩, by with_unfolding_all decide,
        by with_unfolding_all decide⟩

/-- C3 counterexample: the cited code path (`generate_return_plan` lines
65-69 feeding `knapsack_selection`) orders by `priority / (mass * volume)`,
not by the spec's score `priority + 2*days + (100 if expired)`.  With item
A (priority 100, mass 10, volume 10, expired today) and item B (priority
50, mass 1, volume 1) under caps 10/10, that path selects [B], while the
procedure the claim describes selects [A] — as does
`waste_management.select_items_for_return`, the routine that actually
implements the claimed score. -/
theorem return_selection_order_counterexample :
    generate_return_plan_selection
        [⟨"A", "A", 10, 1, 1, 10, 100, none⟩, ⟨"B", "B", 1, 1, 1, 1, 50, none⟩] 10 10 =
      .ok ([⟨"B", "B", 1, 1, 1, 1, 50, none⟩], 1, 1) ∧
    knapsack_selection
        [⟨"A", "A", 10, 1, 1, 10, 100, none⟩, ⟨"B", "B", 1, 1, 1, 1, 50, none⟩] 10 10 =
      .ok ([⟨"B", "B", 1, 1, 1, 1, 50, none⟩], 1, 1) ∧
    spec_waste_selection
        [⟨⟨"A", "A", 10, 1, 1, 10, 100, none⟩, 0, WasteReason.expired⟩,
         ⟨⟨"B", "B", 1, 1, 1, 1, 50, none⟩, 0, WasteReason.depleted⟩] 10 10 =
      ([⟨"A", "A", 10, 1, 1, 10, 100, none⟩], 10, 10) ∧
    (select_items_for_return 0
        [⟨⟨"A", "A", 10, 1, 1, 10, 100, none⟩, ⟨WasteReason.expired, 0⟩, "c1", none⟩,
         ⟨⟨"B", "B", 1, 1, 1, 1, 50, none⟩, ⟨WasteReason.depleted, 0⟩, "c1", none⟩]
        10 10).1.map (fun e => e.item.id) = ["A"] ∧
    ([⟨"B", "B", 1, 1, 1, 1, 50, none⟩] : List Item) ≠
      [⟨"A", "A", 10, 1, 1, 10, 100, none⟩] := by
  refine ⟨by with_unfolding_all decide, by with_unfolding_all decide,
    by with_unfolding_all decide, by with_unfolding_all decide,
    by with_unfolding_all decide⟩

/-- The greedy acceptance loop selects a subsequence of its input. -/
theorem greedyTake_sublist (maxW maxV : ℚ) :
    ∀ (l : List Item) (tw tv : ℚ), (greedyTake maxW maxV l tw tv).1.Sublist l := by
  intro l
  induction l with
  | nil => intro tw tv; exact List.Sublist.refl []
  | cons it rest ih =>
    intro tw tv
    unfold greedyTake
    by_cases hok : tw + it.mass ≤ maxW ∧ tv + it.volume ≤ maxV
    · rw [if_pos hok]
      exact (ih (tw + it.mass) (tv + it.volume)).cons₂ it
    · rw [if_neg hok]
      exact (ih tw tv).cons it

/-- C3 amended: the return selection (`generate_return_plan`'s
`knapsack_selection`) orders the candidates by
`priority / (mass * volume)`, highest first (stably), and then greedily
accepts items in that order while both running totals stay within the
caps — so the selected list is a subsequence of that descending-key
order and is itself sorted by the key.  (The spec's score
`priority + 2*days + 100*expired` is implemented by the separate
`waste_management.select_items_for_return` routine, not by this path.) -/
theorem return_selection_greedy_amended (items : List Item) (maxW maxV : ℚ)
    (sel : List Item) (tw tv : ℚ)
    (h : knapsack_selection items maxW maxV = .ok (sel, tw, tv)) :
    ∃ ordered : List Item,
      items.Perm ordered ∧
      ordered.Sorted (fun a b => knapsackKey b ≤ knapsackKey a) ∧
      (sel, tw, tv) = greedyTake maxW maxV ordered 0 0 ∧
      sel.Sublist ordered ∧
      sel.Sorted (fun a b => knapsackKey b ≤ knapsackKey a) := by
  unfold knapsack_selection at h
  split at h
  · injection h with h2
    have hsel : (greedyTake maxW maxV
        (items.insertionSort (fun a b => knapsackKey b ≤ knapsackKey a)) 0 0).1 = sel :=
      congrArg (fun x => x.1) h2
    haveI : IsTotal Item (fun a b => knapsackKey b ≤ knapsackKey a) :=
      ⟨fun a b => le_total (knapsackKey b) (knapsackKey a)⟩
    haveI : IsTrans Item (fun a b => knapsackKey b ≤ knapsackKey a) :=
      ⟨fun _ _ _ h1 h2 => le_trans h2 h1⟩
    have hsorted := List.sorted_insertionSort
      (fun a b => knapsackKey b ≤ knapsackKey a) items
    have hsub : sel.Sublist
        (items.insertionSort (fun a b => knapsackKey b ≤ knapsackKey a)) := by
      rw [← hsel]
      exact greedyTake_sublist maxW maxV _ 0 0
    exact ⟨items.insertionSort (fun a b => knapsackKey b ≤ knapsackKey a),
      (List.perm_insertionSort _ _).symm, hsorted, h2.symm, hsub,
      List.Pairwise.sublist hsub hsorted⟩
  · exact Except.noConfusion h

/-- C3 amended witness. -/
theorem return_selection_greedy_amended_witness :
    ∃ ordered : List Item,
      ([⟨"A", "A", 10, 1, 1, 10, 100, none⟩, ⟨"B", "B", 1, 1, 1, 1, 50, none⟩] :
          List Item).Perm ordered ∧
      ordered.Sorted (fun a b => knapsackKey b ≤ knapsackKey a) ∧
      (([⟨"B", "B", 1, 1, 1, 1, 50, none⟩], (1 : ℚ), (1 : ℚ)) =
        greedyTake 10 10 ordered 0 0) ∧
      ([⟨"B", "B", 1, 1, 1, 1, 50, none⟩] : List Item).Sublist ordered ∧
      ([⟨"B", "B", 1, 1, 1, 1, 50, none⟩] : List Item).Sorted
        (fun a b => knapsackKey b ≤ knapsackKey a) :=
  return_selection_greedy_amended
    [⟨"A", "A", 10, 1, 1, 10, 100, none⟩, ⟨"B", "B", 1, 1, 1, 1, 50, none⟩]
    10 10 [⟨"B", "B", 1, 1, 1, 1, 50, none⟩] 1 1 (by with_unfolding_all decide)

/-- The greedy loop keeps both running totals within the caps and returns
exactly the sums over the accepted items. -/
theorem greedyTake_invariant (maxW maxV : ℚ) :
    ∀ (l : List Item) (tw tv : ℚ), tw ≤ maxW → tv ≤ maxV →
      (greedyTake maxW maxV l tw tv).2.1 ≤ maxW ∧
      (greedyTake maxW maxV l tw tv).2.2 ≤ maxV ∧
      (greedyTake maxW maxV l tw tv).2.1 =
        tw + (((greedyTake maxW maxV l tw tv).1.map Item.mass).sum) ∧
      (greedyTake maxW maxV l tw tv).2.2 =
        tv + (((greedyTake maxW maxV l tw tv).1.map Item.volume).sum) := by
  intro l
  induction l with
  | nil => intro tw tv hW hV; exact ⟨hW, hV, by simp [greedyTake], by simp [greedyTake]⟩
  | cons it rest ih =>
    intro tw tv hW hV
    unfold greedyTake
    by_cases hok : tw + it.mass ≤ maxW ∧ tv + it.volume ≤ maxV
    · rw [if_pos hok]
      obtain ⟨h1, h2, h3, h4⟩ := ih (tw + it.mass) (tv + it.volume) hok.1 hok.2
      refine ⟨h1, h2, ?_, ?_⟩
      · simp only [List.map_cons, List.sum_cons]
        rw [h3]; ring
      · simp only [List.map_cons, List.sum_cons]
        rw [h4]; ring
    · rw [if_neg hok]
      exact ih tw tv hW hV

/-- C8: for nonnegative caps, any successful return selection keeps the
total mass within the weight cap and the total volume within the volume
cap, and the returned totals are exactly the sums over the selected
items. -/
theorem knapsack_caps_respected (items : List Item) (maxW maxV : ℚ)
    (sel : List Item) (tw tv : ℚ) (hW : 0 ≤ maxW) (hV : 0 ≤ maxV)
    (h : knapsack_selection items maxW maxV = .ok (sel, tw, tv)) :
    tw ≤ maxW ∧ tv ≤ maxV ∧
    tw = (sel.map Item.mass).sum ∧ tv = (sel.map Item.volume).sum := by
  unfold knapsack_selection at h
  split at h
  · injection h with h2
    have hsel := congrArg (fun x => x.1) h2
    have htw := congrArg (fun x => x.2.1) h2
    have htv := congrArg (fun x => x.2.2) h2
    dsimp only at hsel htw htv
    obtain ⟨h1, h2i, h3, h4⟩ := greedyTake_invariant maxW maxV
      (items.insertionSort (fun a b => knapsackKey b ≤ knapsackKey a)) 0 0 hW hV
    rw [← hsel, ← htw, ← htv]
    refine ⟨h1, h2i, ?_, ?_⟩
    · rw [h3, zero_add]
    · rw [h4, zero_add]
  · exact Except.noConfusion h

/-- C8 witness. -/
theorem knapsack_caps_respected_witness :
    (1 : ℚ) ≤ 5 ∧ (1 : ℚ) ≤ 5 ∧
    (1 : ℚ) = (([⟨"X", "X", 1, 1, 1, 1, 50, none⟩] : List Item).map Item.mass).sum ∧
    (1 : ℚ) = (([⟨"X", "X", 1, 1, 1, 1, 50, none⟩] : List Item).map Item.volume).sum :=
  knapsack_caps_respected [⟨"X", "X", 1, 1, 1, 1, 50, none⟩] 5 5
    [⟨"X", "X", 1, 1, 1, 1, 50, none⟩] 1 1 (by with_unfolding_all decide)
    (by with_unfolding_all decide) (by with_unfolding_all decide)

/-! Reachability: the depth-bounded search of `has_path` decides `Reaches`. -/

/-- Unfolding equation for the bounded search at a positive depth. -/
theorem reachN_unfold (E : List (String × String)) (n : ℕ) (u v : String) :
    reachN E (n + 1) u v =
      (decide (u = v) || E.any (fun e => decide (e.1 = u) && reachN E n e.2 v)) := rfl

/-- A walk of at most `n` steps is also a walk of at most `n + 1` steps. -/
theorem reachN_succ (E : List (String × String)) :
    ∀ (n : ℕ) (u v : String), reachN E n u v = true → reachN E (n + 1) u v = true := by
  intro n
  induction n with
  | zero =>
    intro u v h
    rw [reachN_unfold, Bool.or_eq_true]
    exact Or.inl h
  | succ n ih =>
    intro u v h
    rw [reachN_unfold, Bool.or_eq_true] at h
    rw [reachN_unfold, Bool.or_eq_true]
    rcases h with h | h
    · exact Or.inl h
    · right
      rw [List.any_eq_true] at h ⊢
      obtain ⟨e, he, hp⟩ := h
      rw [Bool.and_eq_true] at hp
      exact ⟨e, he, by rw [Bool.and_eq_true]; exact ⟨hp.1, ih _ _ hp.2⟩⟩

/-- Monotonicity of the bounded search in the depth bound. -/
theorem reachN_mono (E : List (String × String)) {m n : ℕ} (hmn : m ≤ n)
    {u v : String} (h : reachN E m u v = true) : reachN E n u v = true := by
  induction hmn with
  | refl => exact h
  | step _ ih => exact reachN_succ E _ u v ih

/-- A walk list yields a bounded search success at its own length. -/
theorem chainOK_reachN (E : List (String × String)) :
    ∀ (l : List String) (u v : String), chainOK E u l v →
      reachN E l.length u v = true := by
  intro l
  induction l with
  | nil =>
    intro u v h
    cases h
    simp [reachN]
  | cons w l ih =>
    intro u v h
    obtain ⟨he, hc⟩ := h
    rw [List.length_cons, reachN_unfold, Bool.or_eq_true]
    right
    rw [List.any_eq_true]
    exact ⟨(u, w), he, by rw [Bool.and_eq_true]; exact ⟨by simp, ih w v hc⟩⟩

/-- A bounded search success yields a walk list of bounded length. -/
theorem reachN_chainOK (E : List (String × String)) :
    ∀ (n : ℕ) (u v : String), reachN E n u v = true →
      ∃ l, l.length ≤ n ∧ chainOK E u l v := by
  intro n
  induction n with
  | zero =>
    intro u v h
    simp only [reachN, decide_eq_true_eq] at h
    exact ⟨[], le_refl 0, h⟩
  | succ n ih =>
    intro u v h
    rw [reachN_unfold] at h
    simp only [Bool.or_eq_true, List.any_eq_true, Bool.and_eq_true,
      decide_eq_true_eq] at h
    rcases h with h | ⟨e, he, h1, h2⟩
    · exact ⟨[], Nat.zero_le _, h⟩
    · obtain ⟨l, hl, hc⟩ := ih e.2 v h2
      refine ⟨e.2 :: l, Nat.succ_le_succ hl, ?_, hc⟩
      have : e = (u, e.2) := by
        cases e
        simp only at h1
        rw [h1]
      rw [← this]
      exact he

/-- Cutting a walk at an occurrence of `x` leaves a walk from `x`. -/
theorem chainOK_append_right (E : List (String × String)) :
    ∀ (s : List String) (x : String) (t : List String) (u v : String),
      chainOK E u (s ++ x :: t) v → chainOK E x t v := by
  intro s
  induction s with
  | nil => intro x t u v h; exact h.2
  | cons a s ih => intro x t u v h; exact ih x t a v h.2

/-- Every intermediate node of a walk is the target of some edge. -/
theorem chainOK_elem (E : List (String × String)) :
    ∀ (l : List String) (u v : String), chainOK E u l v →
      ∀ x ∈ l, x ∈ E.map Prod.snd := by
  intro l
  induction l with
  | nil => intro u v _ x hx; cases hx
  | cons w l ih =>
    intro u v h x hx
    obtain ⟨he, hc⟩ := h
    rcases List.mem_cons.mp hx with rfl | hx
    · exact List.mem_map.mpr ⟨(u, x), he, rfl⟩
    · exact ih w v hc x hx

/-- Every walk can be shortened to one visiting no node twice. -/
theorem chainOK_nodup (E : List (String × String)) (v : String) :
    ∀ (n : ℕ) (l : List String) (u : String), l.length ≤ n → chainOK E u l v →
      ∃ l2, chainOK E u l2 v ∧ (u :: l2).Nodup ∧ l2.length ≤ l.length := by
  intro n
  induction n with
  | zero =>
    intro l u hl hc
    have h0 : l = [] := List.length_eq_zero.mp (Nat.le_zero.mp hl)
    subst h0
    exact ⟨[], hc, by simp, le_refl 0⟩
  | succ n ih =>
    intro l u hl hc
    cases l with
    | nil => exact ⟨[], hc, by simp, le_refl 0⟩
    | cons w l0 =>
      obtain ⟨he, hc0⟩ := hc
      have hl0 : l0.length ≤ n := by
        simpa using Nat.succ_le_succ_iff.mp (by simpa using hl)
      obtain ⟨l0h, hch, hndh, hlenh⟩ := ih l0 w hl0 hc0
      by_cases hu : u ∈ w :: l0h
      · obtain ⟨s, t, hst⟩ := List.append_of_mem hu
        have hchain : chainOK E u (w :: l0h) v := ⟨he, hch⟩
        rw [hst] at hchain
        have hct := chainOK_append_right E s u t u v hchain
        have hlt : t.length ≤ l0.length := by
          have h1 : (w :: l0h).length = s.length + (t.length + 1) := by
            rw [hst]; simp
          have h2 : t.length ≤ l0h.length := by
            simp only [List.length_cons] at h1
            omega
          exact le_trans h2 hlenh
        obtain ⟨l2, hc2, hnd2, hlen2⟩ := ih t u (le_trans hlt hl0) hct
        exact ⟨l2, hc2, hnd2, le_trans (le_trans hlen2 hlt) (by simp)⟩
      · exact ⟨w :: l0h, ⟨he, hch⟩, List.nodup_cons.mpr ⟨hu, hndh⟩,
          by simpa using Nat.succ_le_succ hlenh⟩

/-- A duplicate-free list drawn from `L` is no longer than `L`. -/
theorem nodup_subset_length {α : Type} [DecidableEq α] (l L : List α)
    (h : l.Nodup) (hs : l ⊆ L) : l.length ≤ L.length := by
  calc l.length = l.toFinset.card := (List.toFinset_card_of_nodup h).symm
    _ ≤ L.toFinset.card := Finset.card_le_card (fun x hx => by
        rw [List.mem_toFinset] at hx ⊢
        exact hs hx)
    _ ≤ L.length := List.toFinset_card_le L

/-- Reachability is decided by searching to depth `|E|`: a minimal walk
visits no node twice, and its intermediate nodes are distinct edge
targets. -/
theorem Reaches.to_reachN {E : List (String × String)} {u v : String}
    (h : Reaches E u v) : reachN E E.length u v = true := by
  obtain ⟨n, hn⟩ := h
  obtain ⟨l, _, hc⟩ := reachN_chainOK E n u v hn
  obtain ⟨l2, hc2, hnd2, _⟩ := chainOK_nodup E v l.length l u (le_refl _) hc
  have hsub : l2 ⊆ E.map Prod.snd := fun x hx => chainOK_elem E l2 u v hc2 x hx
  have hnd : l2.Nodup := (List.nodup_cons.mp hnd2).2
  have hlen : l2.length ≤ E.length := by
    have := nodup_subset_length l2 (E.map Prod.snd) hnd hsub
    simpa using this
  exact reachN_mono E hlen (chainOK_reachN E l2 u v hc2)

/-- `has_path` is sound and complete for reachability. -/
theorem has_path_iff (G : DiGraph) (u v : String) :
    has_path G u v = true ↔ Reaches G.edges u v := by
  constructor
  · intro h
    exact ⟨G.edges.length, h⟩
  · intro h
    exact h.to_reachN

/-- A nonempty walk from `u` with `u ≠ v` starts with an edge out of `u`. -/
theorem Reaches.head_edge {E : List (String × String)} {u v : String}
    (h : Reaches E u v) (hne : u ≠ v) : ∃ w, (u, w) ∈ E := by
  obtain ⟨n, hn⟩ := h
  obtain ⟨l, _, hc⟩ := reachN_chainOK E n u v hn
  cases l with
  | nil => exact absurd hc hne
  | cons w l0 => exact ⟨w, hc.1⟩

/-! Kahn's algorithm: soundness and completeness on acyclic graphs. -/

/-- Soundness of the Kahn loop: a successful sort enumerates exactly the
remaining nodes, without repetition, and lists the source of every edge
between remaining nodes before its target. -/
theorem topoAux_sound (E : List (String × String)) :
    ∀ (fuel : ℕ) (rem : List String) (l : List String), rem.Nodup →
      topoAux E fuel rem = some l →
      l.Nodup ∧ (∀ x, x ∈ l ↔ x ∈ rem) ∧
        (∀ u v, (u, v) ∈ E → u ∈ rem → v ∈ rem →
          l.indexOf u < l.indexOf v) := by
  intro fuel
  induction fuel with
  | zero =>
    intro rem l hnd h
    simp only [topoAux] at h
    by_cases he : rem.isEmpty
    · rw [if_pos he] at h
      cases h
      have h0 : rem = [] := List.isEmpty_iff.mp he
      subst h0
      exact ⟨List.nodup_nil, fun x => by simp, fun u v _ hu _ => absurd hu (by simp)⟩
    · rw [if_neg he] at h
      cases h
  | succ fuel ih =>
    intro rem l hnd h
    simp only [topoAux] at h
    cases hfind : rem.find? (fun v => noIncoming E rem v) with
    | none =>
      rw [hfind] at h
      by_cases he : rem.isEmpty
      · rw [if_pos he] at h
        cases h
        have h0 : rem = [] := List.isEmpty_iff.mp he
        subst h0
        exact ⟨List.nodup_nil, fun x => by simp, fun u v _ hu _ => absurd hu (by simp)⟩
      · rw [if_neg he] at h
        cases h
    | some v0 =>
      rw [hfind] at h
      dsimp only at h
      cases h0 : topoAux E fuel (rem.erase v0) with
      | none => rw [h0] at h; cases h
      | some l0 =>
        rw [h0] at h
        cases h
        have hv0mem : v0 ∈ rem := List.mem_of_find?_eq_some hfind
        have hv0no : noIncoming E rem v0 = true := List.find?_some hfind
        have hndE : (rem.erase v0).Nodup := hnd.erase v0
        obtain ⟨hl0nd, hl0mem, hl0ord⟩ := ih (rem.erase v0) l0 hndE h0
        have hv0notl0 : v0 ∉ l0 := fun hmem =>
          ((hnd.mem_erase_iff.mp ((hl0mem v0).mp hmem)).1) rfl
        refine ⟨List.nodup_cons.mpr ⟨hv0notl0, hl0nd⟩, ?_, ?_⟩
        · intro x
          rw [List.mem_cons, hl0mem x, hnd.mem_erase_iff]
          constructor
          · rintro (rfl | ⟨_, hx⟩)
            · exact hv0mem
            · exact hx
          · intro hx
            by_cases hxv : x = v0
            · exact Or.inl hxv
            · exact Or.inr ⟨hxv, hx⟩
        · intro u v huv hu hv
          have hvne : v ≠ v0 := by
            rintro rfl
            have : E.any (fun e => decide (e.1 ∈ rem) && decide (e.2 = v)) = true :=
              List.any_eq_true.mpr ⟨(u, v), huv, by
                rw [Bool.and_eq_true, decide_eq_true_eq, decide_eq_true_eq]
                exact ⟨hu, rfl⟩⟩
            unfold noIncoming at hv0no
            rw [Bool.not_eq_true'] at hv0no
            -- the decision procedure in `noIncoming` matches ours up to `decide`
            simp only [decide_eq_true_eq] at hv0no this
            rw [hv0no] at this
            cases this
          by_cases huv0 : u = v0
          · subst huv0
            rw [List.indexOf_cons_self]
            rw [List.indexOf_cons_ne _ (fun h => hvne h.symm)]
            exact Nat.succ_pos _
          · have hu0 : u ∈ rem.erase v0 := hnd.mem_erase_iff.mpr ⟨huv0, hu⟩
            have hv0 : v ∈ rem.erase v0 := hnd.mem_erase_iff.mpr ⟨hvne, hv⟩
            rw [List.indexOf_cons_ne _ (fun h => huv0 h.symm),
              List.indexOf_cons_ne _ (fun h => hvne h.symm)]
            exact Nat.succ_lt_succ (hl0ord u v huv hu0 hv0)

/-- In an acyclic graph every nonempty node set has a member with no
incoming edge from the set: otherwise iterating a predecessor choice
would, by pigeonhole, close a cycle. -/
theorem exists_source (E : List (String × String)) (rem : List String)
    (hne : rem ≠ []) (hacy : Acyclic E) :
    ∃ v ∈ rem, noIncoming E rem v = true := by
  by_contra hno
  push_neg at hno
  have hpred : ∀ v ∈ rem, ∃ e ∈ E, e.1 ∈ rem ∧ e.2 = v := by
    intro v hv
    have h1f : noIncoming E rem v = false := Bool.eq_false_iff.mpr (hno v hv)
    unfold noIncoming at h1f
    rw [Bool.not_eq_false'] at h1f
    obtain ⟨e, he, hp⟩ := List.any_eq_true.mp h1f
    rw [Bool.and_eq_true, decide_eq_true_eq, decide_eq_true_eq] at hp
    exact ⟨e, he, hp.1, hp.2⟩
  let f : String → String := fun v =>
    ((E.find? (fun e => decide (e.1 ∈ rem) && decide (e.2 = v))).map Prod.fst).getD v
  have hf : ∀ v ∈ rem, f v ∈ rem ∧ (f v, v) ∈ E := by
    intro v hv
    obtain ⟨e, he, h1, h2⟩ := hpred v hv
    have hs : (E.find? (fun e => decide (e.1 ∈ rem) && decide (e.2 = v))).isSome := by
      rw [List.find?_isSome]
      refine ⟨e, he, ?_⟩
      rw [Bool.and_eq_true, decide_eq_true_eq, decide_eq_true_eq]
      exact ⟨h1, h2⟩
    obtain ⟨e0, he0⟩ := Option.isSome_iff_exists.mp hs
    have he0p := List.find?_some he0
    rw [Bool.and_eq_true, decide_eq_true_eq, decide_eq_true_eq] at he0p
    have he0m := List.mem_of_find?_eq_some he0
    have hfv : f v = e0.1 := by
      show ((E.find? _).map Prod.fst).getD v = e0.1
      rw [he0]
      rfl
    rw [hfv]
    refine ⟨he0p.1, ?_⟩
    have : e0 = (e0.1, v) := by
      cases e0
      simp only at he0p ⊢
      rw [he0p.2]
    rw [← this]
    exact he0m
  let a : ℕ → String := fun n => f^[n] (rem.head hne)
  have ha : ∀ n, a n ∈ rem := by
    intro n
    induction n with
    | zero => exact List.head_mem hne
    | succ n ihn =>
      show f^[n + 1] (rem.head hne) ∈ rem
      rw [Function.iterate_succ_apply']
      exact (hf _ ihn).1
  have hedge : ∀ n, (a (n + 1), a n) ∈ E := by
    intro n
    show (f^[n + 1] (rem.head hne), a n) ∈ E
    rw [Function.iterate_succ_apply']
    exact (hf _ (ha n)).2
  have hreach : ∀ (d k : ℕ), reachN E d (a (k + d)) (a k) = true := by
    intro d
    induction d with
    | zero => intro k; simp [reachN]
    | succ d ihd =>
      intro k
      rw [reachN_unfold, Bool.or_eq_true]
      right
      rw [List.any_eq_true]
      refine ⟨(a (k + d + 1), a (k + d)), hedge (k + d), ?_⟩
      rw [Bool.and_eq_true, decide_eq_true_eq]
      constructor
      · show a (k + d + 1) = a (k + (d + 1))
        rw [Nat.add_assoc]
      · exact ihd k
  have hcard : (rem.toFinset).card < (Finset.range (rem.length + 1)).card := by
    rw [Finset.card_range]
    exact Nat.lt_succ_of_le (List.toFinset_card_le rem)
  obtain ⟨i, _, j, _, hij, heq⟩ :=
    Finset.exists_ne_map_eq_of_card_lt_of_maps_to hcard
      (fun n _ => List.mem_toFinset.mpr (ha n))
  rcases Nat.lt_or_ge i j with hlt | hge
  · obtain ⟨d, rfl⟩ : ∃ d, j = i + (d + 1) :=
      ⟨j - i - 1, by omega⟩
    apply hacy (a (i + (d + 1)))
    refine ⟨a (i + d), hedge (i + d), ⟨d, ?_⟩⟩
    rw [← heq]
    exact hreach d i
  · have hlt2 : j < i := lt_of_le_of_ne hge (fun h => hij h.symm)
    obtain ⟨d, rfl⟩ : ∃ d, i = j + (d + 1) :=
      ⟨i - j - 1, by omega⟩
    apply hacy (a (j + (d + 1)))
    refine ⟨a (j + d), hedge (j + d), ⟨d, ?_⟩⟩
    rw [heq]
    exact hreach d j

/-- Completeness of the Kahn loop on acyclic graphs: with enough fuel the
sort never fails. -/
theorem topoAux_complete (E : List (String × String)) (hacy : Acyclic E) :
    ∀ (fuel : ℕ) (rem : List String), rem.length ≤ fuel →
      (topoAux E fuel rem).isSome := by
  intro fuel
  induction fuel with
  | zero =>
    intro rem hlen
    have h0 : rem = [] := List.length_eq_zero.mp (Nat.le_zero.mp hlen)
    subst h0
    simp [topoAux]
  | succ fuel ih =>
    intro rem hlen
    simp only [topoAux]
    cases hfind : rem.find? (fun v => noIncoming E rem v) with
    | none =>
      have hrem : rem = [] := by
        by_contra hne
        obtain ⟨v, hv, hvno⟩ := exists_source E rem hne hacy
        have := List.find?_eq_none.mp hfind v hv
        exact this hvno
      subst hrem
      simp
    | some v =>
      have hvmem : v ∈ rem := List.mem_of_find?_eq_some hfind
      have hlen2 : (rem.erase v).length ≤ fuel := by
        rw [List.length_erase_of_mem hvmem]
        omega
      have hs := ih (rem.erase v) hlen2
      obtain ⟨l0, hl0⟩ := Option.isSome_iff_exists.mp hs
      dsimp only
      rw [hl0]
      rfl

/-- C2: the set of items returned by the blocking-set computation equals
exactly the set of nodes other than the target from which the target is
reachable, and, when the induced subgraph on that set is acyclic, the
returned order is the reverse of a topological order of that subgraph. -/
theorem blocking_set_and_order_correct (G : DiGraph) (t : String)
    (hWF : G.WF) (hN : G.nodes.Nodup) (_ht : t ∈ G.nodes) :
    (∀ u, u ∈ find_items_to_move_optimized G t ↔ (u ≠ t ∧ Reaches G.edges u t)) ∧
    (Acyclic (subgraph G (G.nodes.filter (fun node =>
        node ≠ t && has_path G node t))).edges →
      IsTopoOrder (find_items_to_move_optimized G t).reverse
        (subgraph G (G.nodes.filter (fun node => node ≠ t && has_path G node t)))) := by
  set blocking := G.nodes.filter (fun node => node ≠ t && has_path G node t) with hbdef
  have hblock : ∀ u, u ∈ blocking ↔ (u ≠ t ∧ Reaches G.edges u t) := by
    intro u
    rw [hbdef, List.mem_filter, Bool.and_eq_true, decide_eq_true_eq]
    constructor
    · rintro ⟨_, hne, hp⟩
      exact ⟨hne, (has_path_iff G u t).mp hp⟩
    · rintro ⟨hne, hr⟩
      obtain ⟨w, hw⟩ := hr.head_edge hne
      exact ⟨(hWF (u, w) hw).1, hne, (has_path_iff G u t).mpr hr⟩
  set sub := subgraph G blocking with hsdef
  have hsubnodes : ∀ x, x ∈ sub.nodes ↔ x ∈ blocking := by
    intro x
    rw [hsdef]
    show x ∈ G.nodes.filter (fun n => decide (n ∈ blocking)) ↔ x ∈ blocking
    rw [List.mem_filter, decide_eq_true_eq]
    constructor
    · exact fun h => h.2
    · intro h
      exact ⟨List.mem_of_mem_filter (hbdef ▸ h), h⟩
  have hsubnd : sub.nodes.Nodup := List.Nodup.filter _ hN
  have hfi : find_items_to_move_optimized G t =
      (if blocking.isEmpty then []
       else match topoAux sub.edges sub.nodes.length sub.nodes with
         | some move_order => move_order.reverse
         | none => blocking) := rfl
  have hresult : ∀ u, u ∈ find_items_to_move_optimized G t ↔ u ∈ blocking := by
    intro u
    rw [hfi]
    by_cases hemp : blocking.isEmpty
    · rw [if_pos hemp]
      have h0 : blocking = [] := List.isEmpty_iff.mp hemp
      rw [h0]
    · rw [if_neg hemp]
      cases htopo : topoAux sub.edges sub.nodes.length sub.nodes with
      | none => exact Iff.rfl
      | some mo =>
        obtain ⟨_, hmem, _⟩ := topoAux_sound sub.edges sub.nodes.length sub.nodes mo
          hsubnd htopo
        rw [List.mem_reverse, hmem u, hsubnodes u]
  refine ⟨fun u => (hresult u).trans (hblock u), ?_⟩
  intro hacy
  rw [hfi]
  by_cases hemp : blocking.isEmpty
  · rw [if_pos hemp]
    have h0 : blocking = [] := List.isEmpty_iff.mp hemp
    refine ⟨fun x => ?_, List.nodup_nil, fun e he => ?_⟩
    · simp only [List.reverse_nil, List.not_mem_nil, false_iff]
      intro hx
      rw [hsubnodes x, h0] at hx
      cases hx
    · exfalso
      have hmem : e.1 ∈ blocking := by
        have hh := List.of_mem_filter he
        rw [decide_eq_true_eq] at hh
        exact hh.1
      rw [h0] at hmem
      cases hmem
  · rw [if_neg hemp]
    have hcomp := topoAux_complete sub.edges hacy sub.nodes.length sub.nodes (le_refl _)
    obtain ⟨mo, hmo⟩ := Option.isSome_iff_exists.mp hcomp
    rw [hmo]
    obtain ⟨hnd, hmem, hord⟩ := topoAux_sound sub.edges sub.nodes.length sub.nodes mo
      hsubnd hmo
    rw [List.reverse_reverse]
    refine ⟨fun x => (hmem x), hnd, ?_⟩
    intro e he
    have he1 : e.1 ∈ sub.nodes := by
      rw [hsubnodes]
      have hh := List.of_mem_filter he
      rw [decide_eq_true_eq] at hh
      exact hh.1
    have he2 : e.2 ∈ sub.nodes := by
      rw [hsubnodes]
      have hh := List.of_mem_filter he
      rw [decide_eq_true_eq] at hh
      exact hh.2
    exact hord e.1 e.2 he he1 he2

/-- C2 witness: the spec's own example, edges A -> B and C -> D with
target B: the blocking set is exactly the reachers of B. -/
theorem blocking_set_and_order_correct_witness :
    ("A" ∈ find_items_to_move_optimized
        ⟨["A", "B", "C", "D"], [("A", "B"), ("C", "D")]⟩ "B" ↔
      ("A" ≠ "B" ∧ Reaches [("A", "B"), ("C", "D")] "A" "B")) :=
  (blocking_set_and_order_correct ⟨["A", "B", "C", "D"], [("A", "B"), ("C", "D")]⟩
    "B" (by unfold DiGraph.WF; with_unfolding_all decide)
    (by with_unfolding_all decide) (by with_unfolding_all decide)).1 "A"

/-! The blocking graph is a DAG: every edge follows the z-sorted order. -/

/-- Adding a node leaves the edge list unchanged. -/
theorem add_node_edges (G : DiGraph) (n : String) :
    (G.add_node n).edges = G.edges := by
  unfold DiGraph.add_node
  split <;> rfl

/-- The node-collection fold produces no edges. -/
theorem nodes_fold_edges (positions : List Position) :
    ∀ (G : DiGraph),
      (positions.foldl (fun G p => G.add_node p.item_id) G).edges = G.edges := by
  induction positions with
  | nil => intro G; rfl
  | cons p ps ih =>
    intro G
    rw [List.foldl_cons, ih, add_node_edges]

/-- `add_edge` adds at most the named edge. -/
theorem add_edge_edges (G : DiGraph) (u v : String) (e : String × String)
    (h : e ∈ (G.add_edge u v).edges) : e ∈ G.edges ∨ e = (u, v) := by
  have h2 : e ∈ (if (u, v) ∈ ((G.add_node u).add_node v).edges
      then ((G.add_node u).add_node v)
      else ⟨((G.add_node u).add_node v).nodes,
            ((G.add_node u).add_node v).edges ++ [(u, v)]⟩).edges := h
  by_cases hmem : (u, v) ∈ ((G.add_node u).add_node v).edges
  · rw [if_pos hmem] at h2
    rw [add_node_edges, add_node_edges] at h2
    exact Or.inl h2
  · rw [if_neg hmem] at h2
    simp only [add_node_edges] at h2
    rcases List.mem_append.mp h2 with h3 | h3
    · exact Or.inl h3
    · exact Or.inr (List.mem_singleton.mp h3)

/-- Any edge produced by the pair fold names an ordered pair. -/
theorem pairs_fold_edges (bbs : List (String × BBox)) :
    ∀ (pairs : List (Position × Position)) (G : DiGraph) (e : String × String),
      e ∈ (pairs.foldl (addBlockEdge bbs) G).edges →
      e ∈ G.edges ∨ ∃ pq ∈ pairs, e = (pq.1.item_id, pq.2.item_id) := by
  intro pairs
  induction pairs with
  | nil => intro G e h; exact Or.inl h
  | cons pq pairs ih =>
    intro G e h
    rw [List.foldl_cons] at h
    rcases ih (addBlockEdge bbs G pq) e h with h1 | h1
    · unfold addBlockEdge at h1
      rcases h2 : bbs.find? (fun kv => kv.1 = pq.1.item_id) with _ | kv1
      · rw [h2] at h1
        exact Or.inl h1
      · rcases h3 : bbs.find? (fun kv => kv.1 = pq.2.item_id) with _ | kv2
        · rw [h2, h3] at h1
          exact Or.inl h1
        · rw [h2, h3] at h1
          dsimp only at h1
          by_cases h4 : blocksBB kv1.2 kv2.2
          · rw [if_pos h4] at h1
            rcases add_edge_edges G pq.1.item_id pq.2.item_id e h1 with h5 | h5
            · exact Or.inl h5
            · exact Or.inr ⟨pq, List.mem_cons_self pq pairs, h5⟩
          · rw [if_neg h4] at h1
            exact Or.inl h1
    · obtain ⟨pq2, hpq2, he⟩ := h1
      exact Or.inr ⟨pq2, List.mem_cons_of_mem pq hpq2, he⟩

/-- Membership in `ordPairs` exhibits a split of the list with the first
component strictly before the second. -/
theorem ordPairs_split {α : Type} :
    ∀ (l : List α) (pq : α × α), pq ∈ ordPairs l →
      ∃ l1 l2 l3, l = l1 ++ pq.1 :: l2 ++ pq.2 :: l3 := by
  intro l
  induction l with
  | nil => intro pq h; cases h
  | cons x xs ih =>
    intro pq h
    unfold ordPairs at h
    rcases List.mem_append.mp h with h | h
    · obtain ⟨y, hy, he⟩ := List.mem_map.mp h
      obtain ⟨s, t, hst⟩ := List.append_of_mem hy
      refine ⟨[], s, t, ?_⟩
      rw [← he, hst]
      simp
    · obtain ⟨l1, l2, l3, he⟩ := ih pq h
      exact ⟨x :: l1, l2, l3, by rw [he]; simp⟩

/-- Index of an element past a prefix not containing it. -/
theorem indexOf_append_of_not_mem {α : Type} [DecidableEq α] (x : α) :
    ∀ (P Q : List α), x ∉ P → (P ++ Q).indexOf x = P.length + Q.indexOf x := by
  intro P
  induction P with
  | nil => intro Q _; simp
  | cons a P ih =>
    intro Q hx
    have hax : a ≠ x := fun h => hx (by rw [h]; exact List.mem_cons_self x P)
    rw [List.cons_append, List.indexOf_cons_ne _ hax,
      ih Q (fun h => hx (List.mem_cons_of_mem a h))]
    simp [Nat.succ_eq_add_one]
    omega

/-- In a duplicate-free list split as `A ++ x :: B ++ y :: C`, `x` is
indexed before `y`. -/
theorem nodup_split_indexOf_lt {α : Type} [DecidableEq α] (L A B C : List α)
    (x y : α) (hL : L = A ++ x :: (B ++ y :: C)) (hnd : L.Nodup) :
    L.indexOf x < L.indexOf y := by
  subst hL
  have hndx := hnd
  rw [List.nodup_append] at hndx
  obtain ⟨hA, hrest, hdisj⟩ := hndx
  have hxA : x ∉ A := fun hx => hdisj hx (List.mem_cons_self x _)
  have hyA : y ∉ A := fun hy => hdisj hy
    (List.mem_cons_of_mem x (List.mem_append_right B (List.mem_cons_self y C)))
  have hyx : y ≠ x := by
    rw [List.nodup_cons] at hrest
    intro h
    exact hrest.1 (h ▸ List.mem_append_right B (List.mem_cons_self y C))
  rw [indexOf_append_of_not_mem x A _ hxA, indexOf_append_of_not_mem y A _ hyA]
  rw [List.indexOf_cons_self, List.indexOf_cons_ne _ (fun h => hyx h.symm)]
  omega

/-- A graph whose edges all go forward in some reference list is acyclic. -/
theorem rank_acyclic (L : List String) (E : List (String × String))
    (h : ∀ e ∈ E, L.indexOf e.1 < L.indexOf e.2) : Acyclic E := by
  have hr : ∀ (n : ℕ) (u v : String), reachN E n u v = true →
      L.indexOf u ≤ L.indexOf v := by
    intro n
    induction n with
    | zero =>
      intro u v hn
      simp only [reachN, decide_eq_true_eq] at hn
      rw [hn]
    | succ n ih =>
      intro u v hn
      rw [reachN_unfold, Bool.or_eq_true] at hn
      rcases hn with hn | hn
      · rw [decide_eq_true_eq] at hn
        rw [hn]
      · obtain ⟨e, he, hp⟩ := List.any_eq_true.mp hn
        rw [Bool.and_eq_true, decide_eq_true_eq] at hp
        have h1 := h e he
        rw [hp.1] at h1
        exact le_of_lt (lt_of_lt_of_le h1 (ih e.2 v hp.2))
  rintro u ⟨w, hw, n, hn⟩
  have h1 := h (u, w) hw
  have h2 := hr n w u hn
  dsimp only at h1
  omega

/-- C6: when each item id appears at most once among the container's
positions, the blocking graph built by the retrieval planner has every
edge going from an earlier to a later position in the z-sorted order, so
it is acyclic and topological sorting of every induced blocking subgraph
succeeds — the cycle fallback is unreachable. -/
theorem blocking_graph_acyclic (getItem : String → Option Item)
    (positions : List Position) (G : DiGraph)
    (hG : G = build_dependency_graph_optimized getItem positions)
    (hnd : (positions.map Position.item_id).Nodup) :
    (∀ e ∈ G.edges,
      ((positions.insertionSort (fun a b => a.z ≤ b.z)).map Position.item_id).indexOf e.1 <
      ((positions.insertionSort (fun a b => a.z ≤ b.z)).map Position.item_id).indexOf e.2) ∧
    Acyclic G.edges ∧
    ∀ t : String,
      (topoAux
        (subgraph G (G.nodes.filter (fun node => node ≠ t && has_path G node t))).edges
        (subgraph G (G.nodes.filter (fun node => node ≠ t && has_path G node t))).nodes.length
        (subgraph G (G.nodes.filter (fun node => node ≠ t && has_path G node t))).nodes).isSome := by
  set sorted := positions.insertionSort (fun a b => a.z ≤ b.z) with hsorted
  set ids := sorted.map Position.item_id with hids
  have hperm : sorted.Perm positions := List.perm_insertionSort _ positions
  have hidsnd : ids.Nodup := ((hperm.map Position.item_id).nodup_iff).mpr hnd
  have hedge : ∀ e ∈ G.edges, ids.indexOf e.1 < ids.indexOf e.2 := by
    intro e he
    rw [hG] at he
    unfold build_dependency_graph_optimized at he
    rw [← hsorted] at he
    rcases pairs_fold_edges _ (ordPairs sorted) _ e he with h1 | h1
    · rw [nodes_fold_edges] at h1
      cases h1
    · obtain ⟨pq, hpq, heq⟩ := h1
      obtain ⟨l1, l2, l3, hsplit⟩ := ordPairs_split sorted pq hpq
      have hidsplit : ids = (l1.map Position.item_id) ++ pq.1.item_id ::
          ((l2.map Position.item_id) ++ pq.2.item_id :: (l3.map Position.item_id)) := by
        rw [hids, hsplit]
        simp
      rw [heq]
      exact nodup_split_indexOf_lt ids (l1.map Position.item_id)
        (l2.map Position.item_id) (l3.map Position.item_id)
        pq.1.item_id pq.2.item_id hidsplit hidsnd
  have hacy : Acyclic G.edges := rank_acyclic ids G.edges hedge
  refine ⟨hedge, hacy, ?_⟩
  intro t
  have hsubacy : Acyclic (subgraph G (G.nodes.filter
      (fun node => node ≠ t && has_path G node t))).edges := by
    apply rank_acyclic ids
    intro e he
    exact hedge e (List.mem_of_mem_filter he)
  exact topoAux_complete _ hsubacy _ _ (le_refl _)

/-- C6 witness: the stacked example pair builds an acyclic graph. -/
theorem blocking_graph_acyclic_witness :
    Acyclic (build_dependency_graph_optimized exLookup [exPosA, exPosB]).edges :=
  (blocking_graph_acyclic exLookup [exPosA, exPosB] _ rfl
    (by with_unfolding_all decide)).2.1

/-- C7: a position at z = 0 is always classified visible; a position with
z > 0 (with a resolvable target item) is classified visible iff for every
other resolvable item strictly in front of it with overlapping z-extent
there is no overlap in both the x and y bounding-box projections. -/
theorem visibility_characterization (getItem : String → Option Item)
    (tp : Position) (ps : List Position) :
    (tp.z = 0 → is_visible getItem tp ps = true) ∧
    (0 < tp.z → ∀ ti : Item, getItem tp.item_id = some ti →
      (is_visible getItem tp ps = true ↔
        ∀ p ∈ ps, p.id ≠ tp.id → p.z < tp.z →
          ∀ bi : Item, getItem p.item_id = some bi →
            (positionBBox ti tp).z_min < (positionBBox bi p).z_max →
            ¬ xyOverlap (positionBBox bi p) (positionBBox ti tp))) := by
  constructor
  · intro h0
    unfold is_visible
    rw [if_pos h0]
  · intro hz ti hti
    unfold is_visible
    rw [if_neg (ne_of_gt hz), hti]
    dsimp only
    rw [Bool.not_eq_true', List.any_eq_false]
    constructor
    · intro H p hp hid hfront bi hbi hzm hov
      have hf := H p hp
      apply hf
      rw [if_neg hid, if_neg (not_le.mpr hfront), hbi]
      dsimp only
      rw [if_neg (not_le.mpr hzm)]
      simp only [Bool.and_eq_true, decide_eq_true_eq]
      exact ⟨⟨hov.1.1, hov.1.2⟩, hov.2.1, hov.2.2⟩
    · intro H p hp
      intro hf
      by_cases hid : p.id = tp.id
      · rw [if_pos hid] at hf; cases hf
      rw [if_neg hid] at hf
      by_cases hfront : tp.z ≤ p.z
      · rw [if_pos hfront] at hf; cases hf
      rw [if_neg hfront] at hf
      cases hbi : getItem p.item_id with
      | none => rw [hbi] at hf; cases hf
      | some bi =>
        rw [hbi] at hf
        dsimp only at hf
        by_cases hzm : (positionBBox bi p).z_max ≤ (positionBBox ti tp).z_min
        · rw [if_pos hzm] at hf; cases hf
        rw [if_neg hzm] at hf
        simp only [Bool.and_eq_true, decide_eq_true_eq] at hf
        exact H p hp hid (not_le.mp hfront) bi hbi (not_le.mp hzm)
          ⟨⟨hf.1.1, hf.1.2⟩, hf.2.1, hf.2.2⟩

/-- C7 witness: item A at the open face is visible; item B, fully shadowed
by A, is not. -/
theorem visibility_characterization_witness :
    is_visible exLookup exPosA [exPosA, exPosB] = true ∧
    is_visible exLookup exPosB [exPosA, exPosB] = false := by
  constructor
  · exact (visibility_characterization exLookup exPosA [exPosA, exPosB]).1
      (by with_unfolding_all decide)
  · have h := (visibility_characterization exLookup exPosB [exPosA, exPosB]).2
      (by with_unfolding_all decide) exItemB (by with_unfolding_all decide)
    rw [Bool.eq_false_iff]
    intro hv
    have hno := h.mp hv exPosA (by with_unfolding_all decide)
      (by with_unfolding_all decide) (by with_unfolding_all decide)
      exItemA (by with_unfolding_all decide) (by with_unfolding_all decide)
    apply hno
    unfold xyOverlap
    with_unfolding_all decide

/-- Projecting the remove/setAside phase onto (action, item) pairs when
every blocking id resolves. -/
theorem removePhase_map (getItem : String → Option Item) :
    ∀ (l : List String), (∀ b ∈ l, (getItem b).isSome) →
      ((l.foldr (fun b acc =>
          (match getItem b with
           | none => []
           | some bi => [RetrievalStep.mk "remove" b bi.name,
                         RetrievalStep.mk "setAside" b bi.name]) ++ acc) []).map
        (fun s => (s.action, s.item_id))) =
      l.foldr (fun b acc => ("remove", b) :: ("setAside", b) :: acc) [] := by
  intro l
  induction l with
  | nil => intro _; rfl
  | cons b l ih =>
    intro hres
    obtain ⟨bi, hbi⟩ := Option.isSome_iff_exists.mp (hres b (List.mem_cons_self b l))
    rw [List.foldr_cons, List.foldr_cons, hbi, List.map_append,
      ih (fun x hx => hres x (List.mem_cons_of_mem b hx))]
    rfl

/-- Projecting the placeBack phase onto (action, item) pairs when every
blocking id resolves. -/
theorem placeBackPhase_map (getItem : String → Option Item) :
    ∀ (l : List String), (∀ b ∈ l, (getItem b).isSome) →
      ((l.foldr (fun b acc =>
          (match getItem b with
           | none => []
           | some bi => [RetrievalStep.mk "placeBack" b bi.name]) ++ acc) []).map
        (fun s => (s.action, s.item_id))) =
      l.map (fun b => ("placeBack", b)) := by
  intro l
  induction l with
  | nil => intro _; rfl
  | cons b l ih =>
    intro hres
    obtain ⟨bi, hbi⟩ := Option.isSome_iff_exists.mp (hres b (List.mem_cons_self b l))
    rw [List.foldr_cons, hbi, List.map_append,
      ih (fun x hx => hres x (List.mem_cons_of_mem b hx))]
    rfl

/-- C1: when the item, container and target position resolve and every
computed blocking item resolves, the emitted action sequence is exactly
remove(b1), setAside(b1), ..., remove(bn), setAside(bn), one retrieve of
the target, then placeBack(bn), ..., placeBack(b1) — the placeBack order
is the exact reverse of the removal order (with n = 0 for a visible
target). -/
theorem retrieval_steps_sequence
    (getItem : String → Option Item) (getContainer : String → Option Container)
    (getPositions : String → List Position) (item_id container_id : String)
    (item : Item) (target : Position)
    (hI : getItem item_id = some item)
    (hC : (getContainer container_id).isSome)
    (hT : (getPositions container_id).find? (fun p => p.item_id = item_id) = some target)
    (moves : List String)
    (hmoves : moves = (if is_visible getItem target (getPositions container_id) then []
      else find_items_to_move_optimized
        (build_dependency_graph_optimized getItem (getPositions container_id)) item_id))
    (hres : ∀ b ∈ moves, (getItem b).isSome) :
    (generate_retrieval_steps getItem getContainer getPositions item_id container_id).map
        (fun s => (s.action, s.item_id)) =
      (moves.foldr (fun b acc => ("remove", b) :: ("setAside", b) :: acc) [])
        ++ [("retrieve", item_id)]
        ++ moves.reverse.map (fun b => ("placeBack", b)) := by
  obtain ⟨c, hc⟩ := Option.isSome_iff_exists.mp hC
  unfold generate_retrieval_steps
  rw [hI, hc]
  dsimp only
  rw [hT]
  dsimp only
  by_cases hvis : is_visible getItem target (getPositions container_id)
  · rw [if_pos hvis] at hmoves ⊢
    subst hmoves
    rfl
  · rw [if_neg hvis] at hmoves ⊢
    subst hmoves
    rw [List.map_append, List.map_append]
    rw [removePhase_map getItem _ hres]
    rw [placeBackPhase_map getItem _
      (fun b hb => hres b (List.mem_reverse.mp hb))]
    rfl

/-- C1 witness: the stacked scenario — item B behind item A — yields
remove A, setAside A, retrieve B, placeBack A. -/
theorem retrieval_steps_sequence_witness :
    (generate_retrieval_steps exLookup exContainerLookup
        (fun _ => [exPosA, exPosB]) "B" "c1").map (fun s => (s.action, s.item_id)) =
      [("remove", "A"), ("setAside", "A"), ("retrieve", "B"), ("placeBack", "A")] := by
  have h := retrieval_steps_sequence exLookup exContainerLookup
    (fun _ => [exPosA, exPosB]) "B" "c1" exItemB exPosB
    (by with_unfolding_all decide) (by with_unfolding_all decide)
    (by with_unfolding_all decide) ["A"] (by with_unfolding_all decide)
    (by with_unfolding_all decide)
  rw [h]
  rfl

/-- C9 (code bug): an item that fits two equally-preferred containers
dimensionally but admits no valid placement (both containers are fully
occupied by higher-priority items, so no rearrangement is possible
either) does not get silently omitted: `_find_best_placement` pushes
`(-container_score, container)` tuples onto a `heapq`, the two tied
scores make Python compare the ORM `Container` objects, and the call
raises `TypeError` — the model's error value — instead of returning a
result.  The repository's own test (`test_find_best_placement`, big-item
case) expects `None` here and fails the same way. -/
theorem placement_tie_exception_eval :
    optimize_placement
      (fun s => if s = "I1" then some ⟨"I1", "I1", 2, 2, 2, 1, 90, none⟩
        else if s = "I2" then some ⟨"I2", "I2", 2, 2, 2, 1, 90, none⟩
        else if s = "N1" then some ⟨"N1", "N1", 2, 2, 2, 1, 50, none⟩ else none)
      (fun c => if c = "F1" then [⟨"q1", "I1", "F1", 0, 0, 0, 0, true⟩]
        else if c = "F2" then [⟨"q2", "I2", "F2", 0, 0, 0, 0, true⟩] else [])
      [⟨"N1", "N1", 2, 2, 2, 1, 50, none⟩]
      [⟨"F1", "F1", "Z", 2, 2, 2, none⟩, ⟨"F2", "F2", "Z", 2, 2, 2, none⟩] =
      .error () := by
  with_unfolding_all decide

end Cargo
